import Mathlib

/-!
Shallow embedding of the FT-Echo file-transfer server and client
(`tcp_server.py`, `tcp_client_lib.py`).

Conventions of the embedding:
* Python `bytes` values are `List Nat` (one `Nat` per byte).
* Decoded text (`payload.decode('utf-8')`) is modelled as the byte list
  itself: command payloads in the claims are ASCII, where the UTF-8
  decoding is the identity on byte values.
* The filesystem storage directory is an association list from file
  names (byte lists) to file contents (byte lists); a staged upload
  `<name>.part` is the key `name ++ ".part"`.
* `hashlib.sha256` is modelled by an arbitrary digest function
  `H : Bytes → Bytes` passed to every handler: the handlers only ever
  feed it an accumulated byte sequence and compare the resulting
  digests, so every theorem is stated for all `H` and holds for SHA-256
  in particular.  The hex rendering of the digest is folded into `H`.
* A TCP stream of already-framed messages is a `List Frame`; exhausting
  the list models the peer closing the connection.
-/

abbrev Bytes := List Nat

/-- ASCII/UTF-8 bytes of a Lean string literal (used only for ASCII text). -/
def str2bytes (s : String) : Bytes := s.data.map Char.toNat

/-- ASCII decimal digit test, bytes `'0'`..`'9'`. -/
def isDigitByte (b : Nat) : Bool := 48 ≤ b && b ≤ 57

/-- Little-endian decimal digits of `n` (fuel-structural so that it
evaluates by kernel reduction); `fuel ≥ n` suffices. -/
def digitsLE : Nat → Nat → List Nat
  | 0, _ => []
  | _ + 1, 0 => []
  | fuel + 1, n + 1 => (n + 1) % 10 :: digitsLE fuel ((n + 1) / 10)

/-- Bytes of Python `str(n)` for a natural number `n`. -/
def natBytes (n : Nat) : Bytes :=
  if n = 0 then [48] else ((digitsLE n n).map (· + 48)).reverse

/-- Bytes of Python `str(i)` for an integer `i`. -/
def intBytes (i : Int) : Bytes :=
  if i < 0 then 45 :: natBytes i.natAbs else natBytes i.toNat

/-- Value of a most-significant-first ASCII digit string. -/
def digitsVal (l : Bytes) : Nat := l.foldl (fun a b => a * 10 + (b - 48)) 0

/-- ASCII whitespace bytes stripped by Python `str.strip()` / `int()`. -/
def isWsByte (b : Nat) : Bool := b = 9 || b = 10 || b = 11 || b = 12 || b = 13 || b = 32

/-- Python `str.strip()` on ASCII text. -/
def stripWs (l : Bytes) : Bytes :=
  ((l.dropWhile isWsByte).reverse.dropWhile isWsByte).reverse

/-- Continuation of a digit run in a Python int literal: digits, with
single underscores allowed only between digits (`int('1_0') = 10`,
`int('1__0')`, `int('1_')` raise). -/
def usTail : Bytes → Bool
  | [] => true
  | b :: rest =>
    if b = 95 then
      match rest with
      | [] => false
      | c :: rest2 => isDigitByte c && usTail rest2
    else isDigitByte b && usTail rest

/-- The digit body of a Python int literal: at least one digit, with
single underscores allowed only between digits. -/
def usDigits : Bytes → Bool
  | [] => false
  | b :: rest => isDigitByte b && usTail rest

/-- Value of an unsigned Python int literal body (underscores dropped). -/
def pyIntBody (t : Bytes) : Option Nat :=
  if usDigits t then some (digitsVal (t.filter (fun b => b ≠ 95))) else none

/-- Models Python `int(s)` on ASCII text: optional surrounding
whitespace, optional sign, at least one decimal digit, underscores
allowed singly between digits. -/
def pyInt (l : Bytes) : Option Int :=
  let s := stripWs l
  if s.headD 0 = 45 then (pyIntBody s.tail).map (fun n => -(n : Int))
  else if s.headD 0 = 43 then (pyIntBody s.tail).map (fun n => (n : Int))
  else (pyIntBody s).map (fun n => (n : Int))

/-- Bytes that may appear in the body of a Python int literal when the
text is ASCII: digits, whitespace, signs and the underscore.  A string
containing any other ASCII byte makes `int()` raise `ValueError`. -/
def pyIntLiteralByte (b : Nat) : Bool :=
  isDigitByte b || isWsByte b || b = 43 || b = 45 || b = 95

/-- Little-endian digit-list value (specification helper for `natBytes`). -/
def ofDigitsLE : List Nat → Nat
  | [] => 0
  | d :: ds => d + 10 * ofDigitsLE ds

/-- Python `s.split('|')` on bytes (pipe is byte 124). -/
def splitPipe : Bytes → List Bytes
  | [] => [[]]
  | b :: rest =>
    if b = 124 then [] :: splitPipe rest
    else
      match splitPipe rest with
      | s :: ss => (b :: s) :: ss
      | [] => [[b]]

/-- First component of Python `s.split('|', 1)`. -/
def beforePipe (l : Bytes) : Bytes := l.takeWhile (fun b => b ≠ 124)

/-- Second component of Python `s.split('|', 1)` (valid when a pipe is present). -/
def afterPipe (l : Bytes) : Bytes := (l.dropWhile (fun b => b ≠ 124)).tail

/-- `CHUNK_SIZE` from both `tcp_server.py` and `tcp_client_lib.py`. -/
def CHUNK_SIZE : Nat := 4096

/-- `f.read(CHUNK_SIZE)` loop: split a byte string into successive
chunks of at most 4096 bytes (fuel-structural; `fuel ≥ length`). -/
def chunksOfAux : Nat → Bytes → List Bytes
  | 0, _ => []
  | fuel + 1, l => if l = [] then [] else l.take CHUNK_SIZE :: chunksOfAux fuel (l.drop CHUNK_SIZE)

/-- The chunk sequence a streaming read loop produces from contents `l`. -/
def chunksOf (l : Bytes) : List Bytes := chunksOfAux l.length l

/-- One frame of the FT-Echo protocol: a one-character type and a byte payload. -/
structure Frame where
  type : Char
  payload : Bytes
deriving DecidableEq

/-- The flat storage directory: file name ↦ file contents. -/
abbrev Dir := List (Bytes × Bytes)

/-- Look a file up by name (names in a directory are unique). -/
def Dir.lookup : Dir → Bytes → Option Bytes
  | [], _ => none
  | (k, v) :: d, n => if k = n then some v else Dir.lookup d n

/-- Create or overwrite a file. -/
def Dir.insert : Dir → Bytes → Bytes → Dir
  | [], n, v => [(n, v)]
  | (k, w) :: d, n, v => if k = n then (n, v) :: d else (k, w) :: Dir.insert d n v

/-- Delete a file (`path.unlink()` / the source of a rename). -/
def Dir.erase (d : Dir) (n : Bytes) : Dir := d.filter (fun e => e.1 ≠ n)

/-- Bytes of the suffix `".part"`. -/
def dotPart : Bytes := str2bytes ".part"

/-- The staging name `f"{filename}.part"`. -/
def partName (n : Bytes) : Bytes := n ++ dotPart

/-! ## A small model of Python `json` values and `json.loads`

The server accepts metadata either as pipe-delimited text or as JSON.
`json.loads` is modelled on a sound subset: whitespace, `null`, `true`,
`false`, integers (no floats or exponents), printable-ASCII strings
without escape sequences, arrays and objects.  Whenever this parser
accepts, the input is pure ASCII and Python's `json.loads` accepts with
the same value; inputs outside the subset are treated as parse
failures. -/

inductive Json where
  | null
  | bool (b : Bool)
  | num (n : Int)
  | str (s : Bytes)
  | arr (xs : List Json)
  | obj (fields : List (Bytes × Json))

/-- JSON insignificant whitespace. -/
def jsonWs (l : Bytes) : Bytes :=
  l.dropWhile (fun b => b = 32 || b = 9 || b = 10 || b = 13)

/-- A JSON integer literal: digits, no redundant leading zero, and not
followed by a fraction/exponent (floats are outside the modelled subset). -/
def jsonNat (l : Bytes) : Option (Nat × Bytes) :=
  let ds := l.takeWhile isDigitByte
  let r := l.drop ds.length
  if ds = [] then none
  else if ds.length > 1 ∧ ds.headD 0 = 48 then none
  else if r.headD 0 = 46 ∨ r.headD 0 = 101 ∨ r.headD 0 = 69 then none
  else some (digitsVal ds, r)

mutual

/-- Parse one JSON value (fuel-structural; `fuel > length` suffices). -/
def jsonVal : Nat → Bytes → Option (Json × Bytes)
  | 0, _ => none
  | fuel + 1, l =>
    match jsonWs l with
    | 110 :: 117 :: 108 :: 108 :: r => some (.null, r)
    | 116 :: 114 :: 117 :: 101 :: r => some (.bool true, r)
    | 102 :: 97 :: 108 :: 115 :: 101 :: r => some (.bool false, r)
    | 34 :: r =>
      let s := r.takeWhile (fun b => 32 ≤ b && b ≤ 126 && b ≠ 34 && b ≠ 92)
      (match r.drop s.length with
       | 34 :: r2 => some (.str s, r2)
       | _ => none)
    | 91 :: r =>
      (match jsonWs r with
       | 93 :: r2 => some (.arr [], r2)
       | _ => (jsonItems fuel r).map (fun p => (.arr p.1, p.2)))
    | 123 :: r =>
      (match jsonWs r with
       | 125 :: r2 => some (.obj [], r2)
       | _ => (jsonFields fuel r).map (fun p => (.obj p.1, p.2)))
    | 45 :: r => (jsonNat r).map (fun p => (.num (-(p.1 : Int)), p.2))
    | r => (jsonNat r).map (fun p => (.num (p.1 : Int), p.2))

/-- Parse the items of a JSON array after the opening bracket. -/
def jsonItems : Nat → Bytes → Option (List Json × Bytes)
  | 0, _ => none
  | fuel + 1, l =>
    match jsonVal fuel l with
    | none => none
    | some (v, r) =>
      match jsonWs r with
      | 44 :: r2 => (jsonItems fuel r2).map (fun p => (v :: p.1, p.2))
      | 93 :: r2 => some ([v], r2)
      | _ => none

/-- Parse the fields of a JSON object after the opening brace. -/
def jsonFields : Nat → Bytes → Option (List (Bytes × Json) × Bytes)
  | 0, _ => none
  | fuel + 1, l =>
    match jsonWs l with
    | 34 :: r =>
      let k := r.takeWhile (fun b => 32 ≤ b && b ≤ 126 && b ≠ 34 && b ≠ 92)
      (match r.drop k.length with
       | 34 :: r2 =>
         (match jsonWs r2 with
          | 58 :: r3 =>
            (match jsonVal fuel r3 with
             | none => none
             | some (v, r4) =>
               match jsonWs r4 with
               | 44 :: r5 => (jsonFields fuel r5).map (fun p => ((k, v) :: p.1, p.2))
               | 125 :: r5 => some ([(k, v)], r5)
               | _ => none)
          | _ => none)
       | _ => none)
    | _ => none

end

/-- Models `json.loads` on the subset described at `Json`. -/
def jsonParse (l : Bytes) : Option Json :=
  match jsonVal (l.length + 1) l with
  | some (v, r) => if jsonWs r = [] then some v else none
  | none => none

/-- Python dict built by the JSON decoder: on duplicate keys the last
occurrence wins, so look the key up from the right. -/
def jsonLookup (fields : List (Bytes × Json)) (k : Bytes) : Option Json :=
  (fields.reverse).lookup k

/-! ## Python exceptions relevant to the handlers

`handle_put`/`handle_put_resume` guard metadata parsing with
`except (ValueError, json.JSONDecodeError)` and the transfer phase with
`except Exception`; the connection loop's `R` dispatch also catches only
`(ValueError, json.JSONDecodeError)`.  `KeyError` and `TypeError` are not
`ValueError` subclasses, so a metadata payload that is valid JSON of the
wrong shape escapes the metadata guard. -/

inductive PyExc where
  | valueError (msg : Bytes)
  | jsonDecodeError (msg : Bytes)
  | keyError (msg : Bytes)
  | typeError (msg : Bytes)
deriving DecidableEq

/-- Whether `except (ValueError, json.JSONDecodeError)` catches the exception
(`json.JSONDecodeError` is itself a `ValueError` subclass). -/
def PyExc.isCaughtMeta : PyExc → Bool
  | .valueError _ => true
  | .jsonDecodeError _ => true
  | .keyError _ => false
  | .typeError _ => false

/-- The exception's rendered text (`str(e)`); only the `ValueError`s raised
with explicit messages by the handlers are rendered faithfully, the library
exception texts are abbreviated tags (no claim quotes them). -/
def PyExc.msg : PyExc → Bytes
  | .valueError m => m
  | .jsonDecodeError m => m
  | .keyError m => m
  | .typeError m => m

/-- Message of `int()` on an unparsable literal. -/
def intErrMsg (s : Bytes) : Bytes :=
  str2bytes "invalid literal for int() with base 10: '" ++ s ++ [39]

/-- `metadata['filename']` / `metadata['size']` / `metadata['offset']` on a
Python value decoded from JSON: an object yields the field or `KeyError`,
anything else raises `TypeError` (not subscriptable / wrong index type). -/
def jsonSubscript (j : Json) (key : Bytes) : Except PyExc Json :=
  match j with
  | .obj fields =>
    match jsonLookup fields key with
    | some v => .ok v
    | none => .error (.keyError ([39] ++ key ++ [39]))
  | _ => .error (.typeError (str2bytes "value is not subscriptable"))

/-- Metadata parsing of `handle_put` (lines 163-176 of `tcp_server.py`):
`"filename|size"` via `split('|', 1)` and `int`, otherwise JSON with
`metadata['filename']` and `metadata['size']`.  Only what Python raises
inside lines 164-172 is an error here: a UTF-8/JSON decode failure or an
`int()` failure (`ValueError` family, caught by the guard), subscripting
a non-object (`TypeError`) and a missing key (`KeyError`), both
uncaught.  Wrong-typed *values* under the two keys raise nothing at
parse time: they bind and fail later, so they are returned as the bound
`Json` values (the pipe branch binds a `str` filename and an `int`
size, exactly as Python does). -/
def parsePutMeta (payload : Bytes) : Except PyExc (Json × Json) :=
  if 124 ∈ payload then
    match pyInt (afterPipe payload) with
    | some n => .ok (.str (beforePipe payload), .num n)
    | none => .error (.valueError (intErrMsg (afterPipe payload)))
  else
    match jsonParse payload with
    | none => .error (.jsonDecodeError (str2bytes "Expecting value"))
    | some j =>
      match jsonSubscript j (str2bytes "filename") with
      | .error e => .error e
      | .ok fv =>
        match jsonSubscript j (str2bytes "size") with
        | .error e => .error e
        | .ok sv => .ok (fv, sv)

/-- The declared size as Python's `<`/`!=` treat it against an `int`
count: ints compare as themselves, bools as 0/1 (`bool` is an `int`
subclass); any other type makes `total_received < file_size` raise
`TypeError`. -/
def sizeAsInt : Json → Option Int
  | .num n => some n
  | .bool b => some (if b then 1 else 0)
  | _ => none

/-- `str(TypeError)` from `int < value` for the unordered JSON types
(never consulted for ints and bools). -/
def cmpTypeErrMsg : Json → Bytes
  | .str _ => str2bytes "'<' not supported between instances of 'int' and 'str'"
  | .arr _ => str2bytes "'<' not supported between instances of 'int' and 'list'"
  | .obj _ => str2bytes "'<' not supported between instances of 'int' and 'dict'"
  | .null => str2bytes "'<' not supported between instances of 'int' and 'NoneType'"
  | _ => []

/-- Metadata parsing of `handle_put_resume` (lines 221-235):
`split('|')` with `parts[0]` and `int(parts[1])`, otherwise JSON with
`metadata['filename']` and `metadata['offset']`. -/
def parseResumeMeta (payload : Bytes) : Except PyExc (Bytes × Int) :=
  if 124 ∈ payload then
    let parts := splitPipe payload
    match pyInt (parts.getD 1 []) with
    | some n => .ok (parts.getD 0 [], n)
    | none => .error (.valueError (intErrMsg (parts.getD 1 [])))
  else
    match jsonParse payload with
    | none => .error (.jsonDecodeError (str2bytes "Expecting value"))
    | some j =>
      match jsonSubscript j (str2bytes "filename") with
      | .error e => .error e
      | .ok (.str name) =>
        (match jsonSubscript j (str2bytes "offset") with
         | .error e => .error e
         | .ok (.num n) => .ok (name, n)
         | .ok _ => .error (.typeError (str2bytes "offset is not an int")))
      | .ok _ => .error (.typeError (str2bytes "filename is not a str"))

/-- `RESUME` command parsing in `handle_client` (lines 320-332):
additionally extracts the direction, defaulting to `"get"`
(`parts[2] if len(parts) > 2 else 'get'` / `resume_data.get('direction', 'get')`).
A JSON `direction` that is not a string compares unequal to both
`'get'` and `'put'`; it is rendered as a tag. -/
def parseResumeCmd (payload : Bytes) : Except PyExc (Bytes × Int × Bytes) :=
  if 124 ∈ payload then
    let parts := splitPipe payload
    match pyInt (parts.getD 1 []) with
    | some n =>
      .ok (parts.getD 0 [], n,
           if parts.length > 2 then parts.getD 2 [] else str2bytes "get")
    | none => .error (.valueError (intErrMsg (parts.getD 1 [])))
  else
    match jsonParse payload with
    | none => .error (.jsonDecodeError (str2bytes "Expecting value"))
    | some j =>
      match jsonSubscript j (str2bytes "filename") with
      | .error e => .error e
      | .ok (.str name) =>
        (match jsonSubscript j (str2bytes "offset") with
         | .error e => .error e
         | .ok (.num n) =>
           .ok (name, n,
                match jsonSubscript j (str2bytes "direction") with
                | .ok (.str s) => s
                | .ok _ => str2bytes "<non-str direction>"
                | .error _ => str2bytes "get")
         | .ok _ => .error (.typeError (str2bytes "offset is not an int")))
      | .ok _ => .error (.typeError (str2bytes "filename is not a str"))

/-! ## Wire codec (`send_message` / `recv_message`) -/

/-- `struct.pack('>I', n)` for `n < 2^32`: big-endian 4-byte encoding. -/
def be32 (n : Nat) : Bytes :=
  [n / 2 ^ 24 % 256, n / 2 ^ 16 % 256, n / 2 ^ 8 % 256, n % 256]

/-- `send_message` (lines 53-59 of `tcp_server.py`, identical in the client):
the wire bytes `length(4B big-endian) || type(1B ascii) || payload` with
`length = len(payload) + 1`.  Faithful for `len(payload) + 1 < 2^32` and an
ASCII type character (otherwise `struct.pack` / `str.encode` raise). -/
def send_message (msg_type : Char) (payload : Bytes) : Bytes :=
  be32 (payload.length + 1) ++ msg_type.toNat :: payload

inductive RecvErr where
  | connClosed
  | invalidLength
  | asciiError
deriving DecidableEq

/-- `recv_message` (lines 61-80): read 4 length bytes, fail with
`ValueError` (framing error) if `length < 1`, read the 1-byte type and
decode it as ASCII, read `length - 1` payload bytes; any read past the
end of the stream models the peer closing mid-frame. Returns the frame
and the unconsumed remainder of the stream. -/
def recv_message (stream : Bytes) : Except RecvErr ((Char × Bytes) × Bytes) :=
  match stream with
  | b0 :: b1 :: b2 :: b3 :: rest =>
    let length := ((b0 * 256 + b1) * 256 + b2) * 256 + b3
    if length < 1 then .error .invalidLength
    else
      match rest with
      | [] => .error .connClosed
      | tb :: rest2 =>
        if tb < 128 then
          if rest2.length < length - 1 then .error .connClosed
          else .ok ((Char.ofNat tb, rest2.take (length - 1)), rest2.drop (length - 1))
        else .error .asciiError
  | _ => .error .connClosed

/-! ## Response payload texts (f-strings and `json.dumps` renderings) -/

/-- `json.dumps({"size": n})`. -/
def jsonSizeMeta (n : Nat) : Bytes :=
  123 :: str2bytes "\"size\": " ++ natBytes n ++ [125]

/-- `json.dumps({"size": n, "offset": off})`. -/
def jsonSizeOffsetMeta (n : Nat) (off : Int) : Bytes :=
  123 :: str2bytes "\"size\": " ++ natBytes n ++ str2bytes ", \"offset\": " ++ intBytes off ++ [125]

/-- `json.dumps({"offset": off, "ready": True})`. -/
def jsonResumeAck (off : Int) : Bytes :=
  123 :: str2bytes "\"offset\": " ++ intBytes off ++ str2bytes ", \"ready\": true" ++ [125]

/-- `json.dumps({'filename': name, 'size': n})` as sent by the client. -/
def jsonPutMeta (name : Bytes) (n : Nat) : Bytes :=
  123 :: str2bytes "\"filename\": \"" ++ name ++ str2bytes "\", \"size\": " ++ natBytes n ++ [125]

def notFoundMsg (n : Bytes) : Bytes := str2bytes "File not found: " ++ n

def offsetExceedsMsg (off : Int) (size : Nat) : Bytes :=
  str2bytes "Offset " ++ intBytes off ++ str2bytes " exceeds file size " ++ natBytes size

def invalidMetaMsg (e : PyExc) : Bytes := str2bytes "Invalid metadata: " ++ e.msg

def noPartMsg (n : Bytes) : Bytes := str2bytes "No partial file found for resume: " ++ n

def offsetMismatchMsg (current : Nat) (got : Int) : Bytes :=
  str2bytes "Offset mismatch: expected " ++ natBytes current ++ str2bytes ", got " ++ intBytes got

def putFailedMsg (sub : Bytes) : Bytes := str2bytes "PUT failed: " ++ sub

def expectedChunkMsg (t : Char) : Bytes :=
  str2bytes "Expected 'F' chunk, got '" ++ [t.toNat] ++ [39]

def sizeMismatchMsg (expected received : Int) : Bytes :=
  str2bytes "Size mismatch: expected " ++ intBytes expected ++
    str2bytes ", received " ++ intBytes received

def connClosedMsg : Bytes := str2bytes "Connection closed"

def putResumeFailedMsg (sub : Bytes) : Bytes := str2bytes "PUT RESUME failed: " ++ sub

def unexpectedTypeMsg (t : Char) : Bytes :=
  str2bytes "Unexpected message type: " ++ [t.toNat]

def checksumMismatchMsg (server client : Bytes) : Bytes :=
  str2bytes "Checksum mismatch: server=" ++ server ++ str2bytes ", client=" ++ client

def invalidResumeMsg (e : PyExc) : Bytes := str2bytes "Invalid RESUME format: " ++ e.msg

def invalidDirectionMsg (dirn : Bytes) : Bytes := str2bytes "Invalid direction: " ++ dirn

def unknownTypeMsg (t : Char) : Bytes := str2bytes "Unknown message type: " ++ [t.toNat]

/-! ## Transfer handlers

Every handler is parameterised by the digest function
`H : Bytes → Bytes` standing for `hashlib.sha256(...).hexdigest()` of the
accumulated bytes.  Handlers that read further frames from the connection
take the remaining input stream (`List Frame`) and return what they did
not consume. -/

/-- Outcome of running one dispatched command: frames written to the
socket, the storage directory afterwards, the unconsumed input stream,
whether the loop must exit normally (`Q`), and whether the connection is
terminated by a transport failure or an uncaught exception. -/
structure StepRes where
  out : List Frame
  dir : Dir
  rest : List Frame
  quit : Bool
  closed : Bool
deriving DecidableEq

/-- `handle_list` (lines 82-93): one `name|size` line per committed file
(names not ending in `.part`), joined with `'\n'` and a trailing `'\n'`,
sent as an `O` response.  Directory iteration order is the list order. -/
def listLines (d : Dir) : List Bytes :=
  (d.filter (fun e => ¬ dotPart.isSuffixOf e.1)).map
    (fun e => e.1 ++ 124 :: natBytes e.2.length)

def handle_list (d : Dir) : Frame :=
  ⟨'O', List.intercalate [10] (listLines d) ++ [10]⟩

/-- `handle_get` (lines 95-123): `E` if the file is missing, otherwise the
`O {"size": n}` metadata, the contents in 4096-byte `F` chunks, and the
`S` frame carrying the digest of the whole file. -/
def handle_get (H : Bytes → Bytes) (d : Dir) (filename : Bytes) : List Frame :=
  match d.lookup filename with
  | none => [⟨'E', notFoundMsg filename⟩]
  | some content =>
    ⟨'O', jsonSizeMeta content.length⟩ ::
      (chunksOf content).map (fun c => ⟨'F', c⟩) ++ [⟨'S', H content⟩]

/-- `handle_get_resume` (lines 125-158): `E` if the file is missing or
`offset >= file_size`; otherwise the `O {"size", "offset"}` metadata, the
bytes from `offset` on as `F` chunks, and an `S` digest computed only
over those streamed bytes.  A negative offset passes the size check and
then makes `f.seek(offset)` raise an uncaught exception (`none`). -/
def handle_get_resume (H : Bytes → Bytes) (d : Dir) (filename : Bytes) (offset : Int) :
    Option (List Frame) :=
  match d.lookup filename with
  | none => some [⟨'E', notFoundMsg filename⟩]
  | some content =>
    if (content.length : Int) ≤ offset then
      some [⟨'E', offsetExceedsMsg offset content.length⟩]
    else if offset < 0 then none
    else
      some (⟨'O', jsonSizeOffsetMeta content.length offset⟩ ::
        (chunksOf (content.drop offset.toNat)).map (fun c => ⟨'F', c⟩) ++
          [⟨'S', H (content.drop offset.toNat)⟩])

/-- Result of the `handle_put` receive loop (lines 191-201). -/
inductive PutLoopRes where
  | success (data : Bytes) (rest : List Frame)
  | badFrame (t : Char) (rest : List Frame)
  | sizeOver (total : Int) (data : Bytes) (rest : List Frame)
  | connClosed
deriving DecidableEq

/-- The `while total_received < file_size` loop of `handle_put`: consume
`F` frames, accumulating their payloads; a non-`F` frame raises
`ValueError` (consuming the frame); reaching `total_received >= file_size`
with `total_received != file_size` raises the size-mismatch `ValueError`;
an exhausted stream is the peer closing mid-upload. -/
def putLoop (size : Int) (input : List Frame) (total : Int) (acc : Bytes) : PutLoopRes :=
  if total < size then
      match input with
      | [] => .connClosed
      | f :: rest =>
        if f.type = 'F' then putLoop size rest (total + f.payload.length) (acc ++ f.payload)
        else .badFrame f.type rest
    else if total ≠ size then .sizeOver total acc input
    else .success acc input

/-- `handle_put` (lines 160-216).  Bad metadata caught by the
`(ValueError, json.JSONDecodeError)` guard: `E` and return; an uncaught
parse exception (`TypeError` subscripting a non-object, `KeyError` for a
missing key) kills the connection before anything is sent.  Otherwise
`O "Ready to receive"` goes out first (line 181); then a non-`str`
filename raises `TypeError` at `final_path = self.storage_dir / filename`
(line 185, outside the `try`) and the connection dies with only the `O`
sent; a filename that is a `str` but a size no `int` can be ordered
against raises `TypeError` at the first `total_received < file_size`
inside the transfer `try` — the freshly opened `.part` is deleted, an
`E "PUT failed: ..."` is sent, and the loop continues.  With an ordered
size (`int`, or `bool` as 0/1) the receive loop runs into
`<filename>.part`, ending in the atomic rename plus `O <digest>`, or —
on any loop failure — deletion of the `.part` file and an `E`. -/
def handle_put (H : Bytes → Bytes) (d : Dir) (payload : Bytes) (input : List Frame) : StepRes :=
  match parsePutMeta payload with
  | .error e =>
    if e.isCaughtMeta then ⟨[⟨'E', invalidMetaMsg e⟩], d, input, false, false⟩
    else ⟨[], d, input, false, true⟩
  | .ok (fv, sv) =>
    let ready : Frame := ⟨'O', str2bytes "Ready to receive"⟩
    match fv with
    | .str filename =>
      (match sizeAsInt sv with
       | some size =>
         (match putLoop size input 0 [] with
          | .success data rest =>
            ⟨[ready, ⟨'O', H data⟩], (d.erase (partName filename)).insert filename data, rest,
              false, false⟩
          | .badFrame t rest =>
            ⟨[ready, ⟨'E', putFailedMsg (expectedChunkMsg t)⟩], d.erase (partName filename), rest,
              false, false⟩
          | .sizeOver total _ rest =>
            ⟨[ready, ⟨'E', putFailedMsg (sizeMismatchMsg size total)⟩],
              d.erase (partName filename), rest, false, false⟩
          | .connClosed =>
            ⟨[ready, ⟨'E', putFailedMsg connClosedMsg⟩], d.erase (partName filename), [],
              false, true⟩)
       | none =>
         ⟨[ready, ⟨'E', putFailedMsg (cmpTypeErrMsg sv)⟩], d.erase (partName filename), input,
           false, false⟩)
    | _ => ⟨[ready], d, input, false, true⟩

/-- Result of the `handle_put_resume` receive loop (lines 267-279). -/
inductive ResumeLoopRes where
  | gotS (clientSum : Bytes) (appended : Bytes) (rest : List Frame)
  | badFrame (t : Char) (appended : Bytes) (rest : List Frame)
  | connClosed (appended : Bytes)
deriving DecidableEq

/-- The `while True` loop of `handle_put_resume`: append `F` payloads
until an `S` frame carries the client's digest; any other frame raises
`ValueError`; an exhausted stream is the peer closing. -/
def resumeLoop : List Frame → Bytes → ResumeLoopRes
  | [], acc => .connClosed acc
  | f :: rest, acc =>
    if f.type = 'S' then .gotS f.payload acc rest
    else if f.type = 'F' then resumeLoop rest (acc ++ f.payload)
    else .badFrame f.type acc rest

/-- `handle_put_resume` (lines 218-293).  Requires an existing
`<filename>.part` whose size equals the supplied offset exactly; then
acknowledges, hashes the existing bytes, appends received `F` frames, and
on the client's `S` digest either commits (rename + `O <digest>`) or
keeps the grown `.part` and answers `E`.  Unlike `handle_put`, the
`except` clause never deletes the `.part` file. -/
def handle_put_resume (H : Bytes → Bytes) (d : Dir) (payload : Bytes) (input : List Frame) :
    StepRes :=
  match parseResumeMeta payload with
  | .error e =>
    if e.isCaughtMeta then ⟨[⟨'E', invalidMetaMsg e⟩], d, input, false, false⟩
    else ⟨[], d, input, false, true⟩
  | .ok (filename, offset) =>
    match d.lookup (partName filename) with
    | none => ⟨[⟨'E', noPartMsg filename⟩], d, input, false, false⟩
    | some existing =>
      if offset ≠ (existing.length : Int) then
        ⟨[⟨'E', offsetMismatchMsg existing.length offset⟩], d, input, false, false⟩
      else
        let ack : Frame := ⟨'O', jsonResumeAck offset⟩
        match resumeLoop input [] with
        | .gotS clientSum appended rest =>
          let full := existing ++ appended
          if H full = clientSum then
            ⟨[ack, ⟨'O', H full⟩], (d.erase (partName filename)).insert filename full, rest,
              false, false⟩
          else
            ⟨[ack, ⟨'E', putResumeFailedMsg (checksumMismatchMsg (H full) clientSum)⟩],
              d.insert (partName filename) full, rest, false, false⟩
        | .badFrame t appended rest =>
          ⟨[ack, ⟨'E', putResumeFailedMsg (unexpectedTypeMsg t)⟩],
            d.insert (partName filename) (existing ++ appended), rest, false, false⟩
        | .connClosed appended =>
          ⟨[ack, ⟨'E', putResumeFailedMsg connClosedMsg⟩],
            d.insert (partName filename) (existing ++ appended), [], false, true⟩

/-! ## Connection handler (`handle_client`, lines 295-361) -/

/-- Dispatch one received frame.  Note the `S` case answers
`E "Unexpected checksum message"` and any unrecognised type answers
`E "Unknown message type: <type>"`, both staying in the command loop.
In the `R` case a `(ValueError, json.JSONDecodeError)` from parsing is
caught (`E "Invalid RESUME format: ..."`); a `KeyError`/`TypeError` from
wrong-shape JSON escapes and terminates the connection. -/
def dispatch (H : Bytes → Bytes) (d : Dir) (f : Frame) (rest : List Frame) : StepRes :=
  if f.type = 'Q' then ⟨[⟨'O', str2bytes "Goodbye"⟩], d, rest, true, false⟩
  else if f.type = 'L' then ⟨[handle_list d], d, rest, false, false⟩
  else if f.type = 'G' then ⟨handle_get H d (stripWs f.payload), d, rest, false, false⟩
  else if f.type = 'P' then handle_put H d f.payload rest
  else if f.type = 'R' then
    match parseResumeCmd f.payload with
    | .error e =>
      if e.isCaughtMeta then ⟨[⟨'E', invalidResumeMsg e⟩], d, rest, false, false⟩
      else ⟨[], d, rest, false, true⟩
    | .ok (filename, offset, dirn) =>
      if dirn = str2bytes "get" then
        match handle_get_resume H d filename offset with
        | some frames => ⟨frames, d, rest, false, false⟩
        | none => ⟨[], d, rest, false, true⟩
      else if dirn = str2bytes "put" then handle_put_resume H d f.payload rest
      else ⟨[⟨'E', invalidDirectionMsg dirn⟩], d, rest, false, false⟩
  else if f.type = 'S' then
    ⟨[⟨'E', str2bytes "Unexpected checksum message"⟩], d, rest, false, false⟩
  else ⟨[⟨'E', unknownTypeMsg f.type⟩], d, rest, false, false⟩

/-- The per-connection command loop, fuel-structural (`fuel ≥ length of
the input` suffices; each iteration consumes at least the command frame).
Returns every frame the server wrote over the connection's lifetime and
the final storage directory.  An exhausted input stream models the client
closing the connection. -/
def handleClientAux (H : Bytes → Bytes) : Nat → Dir → List Frame → List Frame × Dir
  | 0, d, _ => ([], d)
  | _ + 1, d, [] => ([], d)
  | fuel + 1, d, f :: rest =>
    let r := dispatch H d f rest
    if r.quit || r.closed then (r.out, r.dir)
    else
      let p := handleClientAux H fuel r.dir r.rest
      (r.out ++ p.1, p.2)

/-- `handle_client`: run the command loop over a whole decoded input stream. -/
def handleClient (H : Bytes → Bytes) (d : Dir) (input : List Frame) : List Frame × Dir :=
  handleClientAux H input.length d input

/-! ## Client driver (`tcp_client_lib.py`) -/

/-- The receive loop of `FTEchoClient.get_file` (lines 142-158): collect
`F` payloads (written to the destination and hashed) until the `S` frame;
an `E` or unexpected frame raises; an exhausted stream is the server
closing.  Returns `(bytes hashed, server digest, destination bytes, rest)`. -/
inductive ClientGetErr where
  | serverErr (msg : Bytes)
  | unexpected (t : Char)
  | closed
deriving DecidableEq

def clientGetLoop : List Frame → Bytes → Bytes → Except ClientGetErr (Bytes × Bytes × Bytes)
  | [], _, _ => .error .closed
  | f :: rest, hashed, dest =>
    if f.type = 'S' then .ok (hashed, f.payload, dest)
    else if f.type = 'F' then clientGetLoop rest (hashed ++ f.payload) (dest ++ f.payload)
    else if f.type = 'E' then .error (.serverErr f.payload)
    else .error (.unexpected f.type)

/-- `FTEchoClient.get_file` with `resume=True` (lines 95-164), run against
the server's response frames, up to the digest comparison: on success
returns `(client digest input bytes, server digest, destination bytes)`.
`local_` is the existing destination file if any (`mode 'ab'`, its bytes
hashed first). -/
def client_get_resume (local_ : Option Bytes) (frames : List Frame) :
    Except ClientGetErr (Bytes × Bytes × Bytes) :=
  match frames with
  | [] => .error .closed
  | f :: rest =>
    if f.type = 'E' then .error (.serverErr f.payload)
    else if f.type ≠ 'O' then .error (.unexpected f.type)
    else
      let init := local_.getD []
      clientGetLoop rest init init

/-- The final digest comparison of `get_file` (lines 160-164): the client
digest accumulated over (local existing bytes ++ received bytes) must equal
the server's `S` digest, else the checksum-mismatch exception. -/
def client_get_file_resume (H : Bytes → Bytes) (local_ : Option Bytes) (frames : List Frame) :
    Except Bytes (Bytes × Bytes) :=
  match client_get_resume local_ frames with
  | .error _ => .error (str2bytes "transfer error")
  | .ok (hashed, serverSha, dest) =>
    if H hashed = serverSha then .ok (H hashed, dest)
    else .error (checksumMismatchMsg (H hashed) serverSha)

/-- The command frame `FTEchoClient.put_file` sends (lines 181-188):
`R "filename|offset|put"` when resuming, else `P` with JSON metadata. -/
def clientPutRequest (filename : Bytes) (size : Nat) (resume : Bool) (offset : Int) : Frame :=
  if resume then ⟨'R', filename ++ 124 :: intBytes offset ++ 124 :: str2bytes "put"⟩
  else ⟨'P', jsonPutMeta filename size⟩

/-- The module-level convenience `put_file` (lines 278-290) always passes
`offset = 0` to `FTEchoClient.put_file`, even when `resume=True`. -/
def module_put_file_request (filename : Bytes) (size : Nat) (resume : Bool) : Frame :=
  clientPutRequest filename size resume 0


/-! ## Lemmas: decimal rendering and `int()` parsing -/

theorem ofDigitsLE_digitsLE : ∀ fuel n, n ≤ fuel → ofDigitsLE (digitsLE fuel n) = n := by
  intro fuel
  induction fuel with
  | zero =>
    intro n h
    obtain rfl : n = 0 := Nat.le_zero.mp h
    rfl
  | succ fuel ih =>
    intro n h
    match n with
    | 0 => rfl
    | m + 1 =>
      have hdiv : (m + 1) / 10 ≤ fuel := by
        have := Nat.div_lt_self (Nat.succ_pos m) (by norm_num : 1 < 10)
        omega
      simp only [digitsLE, ofDigitsLE, ih _ hdiv]
      omega

theorem digitsVal_reverse_map (l : List Nat) :
    digitsVal ((l.map (· + 48)).reverse) = ofDigitsLE l := by
  induction l with
  | nil => rfl
  | cons d ds ih =>
    simp only [List.map_cons, List.reverse_cons, digitsVal, List.foldl_append,
      List.foldl_cons, List.foldl_nil] at *
    simp only [ofDigitsLE]
    omega

theorem digitsLE_lt : ∀ fuel n b, b ∈ digitsLE fuel n → b < 10 := by
  intro fuel
  induction fuel with
  | zero => intro n b h; simp [digitsLE] at h
  | succ fuel ih =>
    intro n b h
    match n with
    | 0 => simp [digitsLE] at h
    | m + 1 =>
      simp only [digitsLE, List.mem_cons] at h
      rcases h with h | h
      · omega
      · exact ih _ _ h

theorem natBytes_digit {n b : Nat} (h : b ∈ natBytes n) : 48 ≤ b ∧ b ≤ 57 := by
  unfold natBytes at h
  split at h
  · simp at h; omega
  · simp only [List.mem_reverse, List.mem_map] at h
    obtain ⟨d, hd, rfl⟩ := h
    have := digitsLE_lt n n d hd
    omega

theorem natBytes_ne_nil (n : Nat) : natBytes n ≠ [] := by
  unfold natBytes
  split
  · simp
  · rename_i h
    match n, h with
    | m + 1, _ => simp [digitsLE]

theorem digitsVal_natBytes (n : Nat) : digitsVal (natBytes n) = n := by
  unfold natBytes
  split
  · rename_i h; subst h; rfl
  · rw [digitsVal_reverse_map, ofDigitsLE_digitsLE n n le_rfl]

theorem dropWhile_eq_self_of_all {p : Nat → Bool} {l : List Nat}
    (h : ∀ b ∈ l, p b = false) : l.dropWhile p = l := by
  cases l with
  | nil => rfl
  | cons a l =>
    rw [List.dropWhile_cons]
    simp [h a (by simp)]

theorem stripWs_eq_self_of_digits {l : List Nat}
    (h : ∀ b ∈ l, 48 ≤ b ∧ b ≤ 57) : stripWs l = l := by
  have hws : ∀ b ∈ l, isWsByte b = false := by
    intro b hb
    have := h b hb
    simp [isWsByte]
    omega
  unfold stripWs
  rw [dropWhile_eq_self_of_all hws,
    dropWhile_eq_self_of_all (fun b hb => hws b (List.mem_reverse.mp hb)),
    List.reverse_reverse]

theorem usTail_of_digits {l : Bytes} (h : ∀ b ∈ l, isDigitByte b = true) :
    usTail l = true := by
  induction l with
  | nil => rfl
  | cons a l ih =>
    have ha := h a (by simp)
    have ha95 : a ≠ 95 := by
      intro hc
      rw [hc] at ha
      exact absurd ha (by decide)
    unfold usTail
    rw [if_neg ha95, ha, ih (fun b hb => h b (List.mem_cons_of_mem _ hb))]
    rfl

theorem usDigits_of_digits {l : Bytes} (hne : l ≠ []) (h : ∀ b ∈ l, isDigitByte b = true) :
    usDigits l = true := by
  cases l with
  | nil => exact absurd rfl hne
  | cons a l =>
    show (isDigitByte a && usTail l) = true
    rw [h a (by simp), usTail_of_digits (fun b hb => h b (List.mem_cons_of_mem _ hb))]
    rfl

theorem pyIntBody_digits {l : Bytes} (hne : l ≠ []) (h : ∀ b ∈ l, 48 ≤ b ∧ b ≤ 57) :
    pyIntBody l = some (digitsVal l) := by
  have hd : ∀ b ∈ l, isDigitByte b = true := fun b hb => by
    have := h b hb
    simp only [isDigitByte, Bool.and_eq_true, decide_eq_true_eq]
    omega
  unfold pyIntBody
  rw [usDigits_of_digits hne hd, if_pos rfl]
  have hfil : l.filter (fun b => b ≠ 95) = l :=
    List.filter_eq_self.mpr (fun b hb => by
      have := h b hb
      simp only [decide_eq_true_eq]
      omega)
  rw [hfil]

theorem pyInt_natBytes (n : Nat) : pyInt (natBytes n) = some (n : Int) := by
  have hd : ∀ b ∈ natBytes n, 48 ≤ b ∧ b ≤ 57 := fun b h => natBytes_digit h
  unfold pyInt
  simp only
  rw [stripWs_eq_self_of_digits hd]
  have hne := natBytes_ne_nil n
  have hhead : (natBytes n).headD 0 ∈ natBytes n := by
    cases hx : natBytes n with
    | nil => exact absurd hx hne
    | cons a l => simp
  have h48 := hd _ hhead
  rw [if_neg (by omega), if_neg (by omega), pyIntBody_digits hne hd, digitsVal_natBytes]
  rfl

theorem not_pipe_natBytes (n : Nat) : 124 ∉ natBytes n := by
  intro h
  have := natBytes_digit h
  omega

theorem not_pipe_intBytes_nonneg (i : Int) (h : 0 ≤ i) : 124 ∉ intBytes i := by
  unfold intBytes
  rw [if_neg (by omega)]
  exact not_pipe_natBytes _

/-! ## Lemmas: pipe splitting and metadata parsing -/

theorem takeWhile_not_pipe_append {a : Bytes} (h : 124 ∉ a) (r : Bytes) :
    (a ++ 124 :: r).takeWhile (fun b => b ≠ 124) = a := by
  induction a with
  | nil => simp
  | cons x a ih =>
    have hx : x ≠ 124 := fun hc => h (by simp [hc])
    have ih' := ih (fun hc => h (List.mem_cons_of_mem _ hc))
    simp only [decide_not] at ih'
    simp only [List.cons_append, List.takeWhile_cons]
    simp [hx, ih']

theorem dropWhile_not_pipe_append {a : Bytes} (h : 124 ∉ a) (r : Bytes) :
    (a ++ 124 :: r).dropWhile (fun b => b ≠ 124) = 124 :: r := by
  induction a with
  | nil => simp
  | cons x a ih =>
    have hx : x ≠ 124 := fun hc => h (by simp [hc])
    have ih' := ih (fun hc => h (List.mem_cons_of_mem _ hc))
    simp only [decide_not] at ih'
    simp only [List.cons_append, List.dropWhile_cons]
    simp [hx, ih']

theorem beforePipe_append {a : Bytes} (h : 124 ∉ a) (r : Bytes) :
    beforePipe (a ++ 124 :: r) = a := takeWhile_not_pipe_append h r

theorem afterPipe_append {a : Bytes} (h : 124 ∉ a) (r : Bytes) :
    afterPipe (a ++ 124 :: r) = r := by
  unfold afterPipe
  rw [dropWhile_not_pipe_append h r]
  rfl

theorem splitPipe_ne_nil : ∀ l : Bytes, splitPipe l ≠ [] := by
  intro l
  induction l with
  | nil => simp [splitPipe]
  | cons b rest ih =>
    rw [splitPipe]
    split
    · simp
    · match hx : splitPipe rest with
      | [] => exact absurd hx ih
      | s :: ss => simp [hx]

theorem splitPipe_cons_ne {x : Nat} (hx : x ≠ 124) (l : Bytes) :
    splitPipe (x :: l) =
      (x :: (splitPipe l).headD []) :: (splitPipe l).tail := by
  rw [splitPipe, if_neg hx]
  match hl : splitPipe l with
  | [] => exact absurd hl (splitPipe_ne_nil l)
  | s :: ss => simp

theorem splitPipe_append {a : Bytes} (h : 124 ∉ a) (r : Bytes) :
    splitPipe (a ++ 124 :: r) = a :: splitPipe r := by
  induction a with
  | nil =>
    simp only [List.nil_append]
    rw [splitPipe, if_pos rfl]
  | cons x a ih =>
    have hx : x ≠ 124 := fun hc => h (by simp [hc])
    have ih' := ih (fun hc => h (List.mem_cons_of_mem _ hc))
    rw [List.cons_append, splitPipe_cons_ne hx, ih']
    simp

theorem splitPipe_no_pipe {a : Bytes} (h : 124 ∉ a) : splitPipe a = [a] := by
  induction a with
  | nil => rfl
  | cons x a ih =>
    have hx : x ≠ 124 := fun hc => h (by simp [hc])
    rw [splitPipe_cons_ne hx, ih (fun hc => h (List.mem_cons_of_mem _ hc))]
    simp

theorem mem_pipe_append (a r : Bytes) : 124 ∈ a ++ 124 :: r := by
  simp

/-- Pipe-format `PUT` metadata binds the name as a `str` value and the
literal size as an `int` value. -/
theorem parsePutMeta_pipe {N : Bytes} (h : 124 ∉ N) (sz : Nat) :
    parsePutMeta (N ++ 124 :: natBytes sz) = .ok (.str N, .num (sz : Int)) := by
  unfold parsePutMeta
  rw [if_pos (mem_pipe_append N _), afterPipe_append h, pyInt_natBytes,
    beforePipe_append h]

/-- Pipe-format `RESUME` metadata (`"name|offset|dirn"`) as read by
`handle_put_resume`. -/
theorem parseResumeMeta_pipe {N t : Bytes} (h : 124 ∉ N) (k : Nat) :
    parseResumeMeta (N ++ 124 :: (natBytes k ++ 124 :: t)) = .ok (N, (k : Int)) := by
  unfold parseResumeMeta
  rw [if_pos (mem_pipe_append N _), splitPipe_append h,
    splitPipe_append (not_pipe_natBytes k)]
  simp only [List.getD_cons_succ, List.getD_cons_zero, pyInt_natBytes]

/-- Pipe-format `RESUME` command (`"name|offset|dirn"`) as read by the
connection loop's dispatch. -/
theorem parseResumeCmd_pipe {N t : Bytes} (h : 124 ∉ N) (ht : 124 ∉ t) (k : Nat) :
    parseResumeCmd (N ++ 124 :: (natBytes k ++ 124 :: t)) = .ok (N, (k : Int), t) := by
  unfold parseResumeCmd
  rw [if_pos (mem_pipe_append N _), splitPipe_append h,
    splitPipe_append (not_pipe_natBytes k), splitPipe_no_pipe ht]
  simp only [List.getD_cons_succ, List.getD_cons_zero, pyInt_natBytes]
  simp

/-- Two-field pipe-format `RESUME` command (`"name|offset"`): the
direction defaults to `"get"`. -/
theorem parseResumeCmd_pipe2 {N : Bytes} (h : 124 ∉ N) (k : Nat) :
    parseResumeCmd (N ++ 124 :: natBytes k) = .ok (N, (k : Int), str2bytes "get") := by
  unfold parseResumeCmd
  rw [if_pos (mem_pipe_append N _), splitPipe_append h,
    splitPipe_no_pipe (not_pipe_natBytes k)]
  simp only [List.getD_cons_succ, List.getD_cons_zero, pyInt_natBytes]
  simp

/-! ## Lemmas: storage directory -/

theorem Dir.lookup_insert_self (d : Dir) (n v : Bytes) :
    Dir.lookup (d.insert n v) n = some v := by
  induction d with
  | nil => simp [Dir.insert, Dir.lookup]
  | cons e d ih =>
    obtain ⟨k, w⟩ := e
    by_cases hk : k = n
    · simp [Dir.insert, hk, Dir.lookup]
    · simp [Dir.insert, hk, Dir.lookup, ih]

theorem Dir.lookup_insert_ne (d : Dir) {n m : Bytes} (v : Bytes) (h : m ≠ n) :
    Dir.lookup (d.insert n v) m = d.lookup m := by
  have hnm : ¬ n = m := fun hc => h hc.symm
  induction d with
  | nil => simp [Dir.insert, Dir.lookup, hnm]
  | cons e d ih =>
    obtain ⟨k, w⟩ := e
    by_cases hk : k = n
    · subst hk
      simp [Dir.insert, Dir.lookup, hnm]
    · by_cases hm : k = m
      · simp [Dir.insert, hk, Dir.lookup, hm, h]
      · simp [Dir.insert, hk, Dir.lookup, hm, ih]

theorem Dir.lookup_erase_self (d : Dir) (n : Bytes) :
    Dir.lookup (d.erase n) n = none := by
  induction d with
  | nil => rfl
  | cons e d ih =>
    obtain ⟨k, w⟩ := e
    unfold Dir.erase at *
    rw [List.filter_cons]
    by_cases hk : k = n
    · subst hk
      simpa using ih
    · simpa [hk, Dir.lookup] using ih

theorem Dir.lookup_erase_ne (d : Dir) {n m : Bytes} (h : m ≠ n) :
    Dir.lookup (d.erase n) m = d.lookup m := by
  induction d with
  | nil => rfl
  | cons e d ih =>
    obtain ⟨k, w⟩ := e
    unfold Dir.erase at *
    rw [List.filter_cons]
    by_cases hk : k = n
    · subst hk
      have hkm : ¬ k = m := fun hc => h (hc ▸ rfl)
      simp only [decide_not]
      simpa [Dir.lookup, hkm] using ih
    · by_cases hm : k = m
      · subst hm
        simp [Dir.lookup, hk]
      · simpa [Dir.lookup, hk, hm] using ih

theorem partName_ne_self (n : Bytes) : n ≠ partName n := by
  intro h
  have : n.length = n.length + 5 := by
    conv_lhs => rw [h]
    simp [partName, dotPart, str2bytes]
  omega

/-! ## Lemmas: chunking -/

theorem chunksOfAux_flatten : ∀ fuel (l : Bytes), l.length ≤ fuel →
    (chunksOfAux fuel l).flatten = l := by
  intro fuel
  induction fuel with
  | zero =>
    intro l h
    obtain rfl : l = [] := List.length_eq_zero.mp (Nat.le_zero.mp h)
    rfl
  | succ fuel ih =>
    intro l h
    by_cases hl : l = []
    · simp [chunksOfAux, hl]
    · have hlen : (l.drop CHUNK_SIZE).length ≤ fuel := by
        have h1 : 1 ≤ l.length := by
          cases l with
          | nil => exact absurd rfl hl
          | cons a l => simp
        simp only [List.length_drop, CHUNK_SIZE]
        omega
      simp [chunksOfAux, hl, ih _ hlen]

theorem chunksOf_flatten (l : Bytes) : (chunksOf l).flatten = l :=
  chunksOfAux_flatten l.length l le_rfl

theorem chunksOfAux_ne_nil : ∀ fuel (l : Bytes) c, c ∈ chunksOfAux fuel l → c ≠ [] := by
  intro fuel
  induction fuel with
  | zero => intro l c h; simp [chunksOfAux] at h
  | succ fuel ih =>
    intro l c h
    by_cases hl : l = []
    · simp [chunksOfAux, hl] at h
    · simp only [chunksOfAux, if_neg hl, List.mem_cons] at h
      rcases h with rfl | h
      · simp only [ne_eq, List.take_eq_nil_iff, CHUNK_SIZE]
        simp [hl]
      · exact ih _ _ h

theorem chunksOf_ne_nil (l : Bytes) : ∀ c ∈ chunksOf l, c ≠ [] :=
  fun c h => chunksOfAux_ne_nil l.length l c h

/-! ## Lemmas: the PUT receive loop -/

/-- The frames a loop outcome leaves unconsumed (for fuel accounting). -/
def PutLoopRes.restOf : PutLoopRes → List Frame
  | .success _ r => r
  | .badFrame _ r => r
  | .sizeOver _ _ r => r
  | .connClosed => []

theorem putLoop_nil (size : Int) (total : Int) (acc : Bytes) (h : total < size) :
    putLoop size [] total acc = .connClosed := by
  rw [putLoop.eq_def, if_pos h]

theorem putLoop_cons (size : Int) (f : Frame) (rest : List Frame) (total : Int) (acc : Bytes)
    (h : total < size) :
    putLoop size (f :: rest) total acc =
      if f.type = 'F' then putLoop size rest (total + f.payload.length) (acc ++ f.payload)
      else .badFrame f.type rest := by
  rw [putLoop.eq_def, if_pos h]

theorem putLoop_done (size : Int) (input : List Frame) (total : Int) (acc : Bytes)
    (h : ¬ total < size) :
    putLoop size input total acc =
      if total ≠ size then .sizeOver total acc input else .success acc input := by
  rw [putLoop.eq_def, if_neg h]

theorem putLoop_restOf_le (size : Int) :
    ∀ (input : List Frame) (total : Int) (acc : Bytes),
      (putLoop size input total acc).restOf.length ≤ input.length := by
  intro input
  induction input with
  | nil =>
    intro total acc
    by_cases h : total < size
    · rw [putLoop_nil size total acc h]
      simp [PutLoopRes.restOf]
    · rw [putLoop_done size [] total acc h]
      split <;> simp [PutLoopRes.restOf]
  | cons f rest ih =>
    intro total acc
    by_cases h : total < size
    · rw [putLoop_cons size f rest total acc h]
      split
      · exact le_trans (ih _ _) (by simp)
      · simp [PutLoopRes.restOf]
    · rw [putLoop_done size _ total acc h]
      split <;> simp [PutLoopRes.restOf]

/-- Feeding exactly `size` bytes of well-chunked `F` frames succeeds and
leaves the remainder of the stream untouched. -/
theorem putLoop_success_of (size : Int) :
    ∀ (chunks : List Bytes) (rest : List Frame) (total : Int) (acc : Bytes),
      (∀ c ∈ chunks, c ≠ []) →
      total + ((chunks.flatten).length : Int) = size →
      putLoop size (chunks.map (fun c => Frame.mk 'F' c) ++ rest) total acc =
        .success (acc ++ chunks.flatten) rest := by
  intro chunks
  induction chunks with
  | nil =>
    intro rest total acc _ htot
    simp only [List.flatten_nil, List.length_nil, Int.natCast_zero, add_zero] at htot
    rw [List.map_nil, List.nil_append, putLoop_done size rest total acc (by omega),
      if_neg (by omega)]
    simp
  | cons c cs ih =>
    intro rest total acc hne htot
    have hc : c ≠ [] := hne c (by simp)
    have hclen : 1 ≤ c.length := by
      cases c with
      | nil => exact absurd rfl hc
      | cons a l => simp
    have hlt : total < size := by
      simp only [List.flatten_cons, List.length_append] at htot
      push_cast at htot
      omega
    rw [List.map_cons, List.cons_append, putLoop_cons size _ _ total acc hlt]
    simp only [if_pos rfl]
    rw [ih rest (total + c.length) (acc ++ c) (fun x hx => hne x (by simp [hx]))
      (by simp only [List.flatten_cons, List.length_append] at htot ⊢
          push_cast at htot ⊢
          omega)]
    simp [List.flatten_cons, List.append_assoc]

/-- A non-`F` frame arriving while the received total is still short of
the declared size aborts the loop with `badFrame`, consuming the frame. -/
theorem putLoop_badFrame_of (size : Int) :
    ∀ (chunks : List Bytes) (g : Frame) (rest : List Frame) (total : Int) (acc : Bytes),
      (∀ c ∈ chunks, c ≠ []) →
      g.type ≠ 'F' →
      total + ((chunks.flatten).length : Int) < size →
      putLoop size (chunks.map (fun c => Frame.mk 'F' c) ++ g :: rest) total acc =
        .badFrame g.type rest := by
  intro chunks
  induction chunks with
  | nil =>
    intro g rest total acc _ hg htot
    simp only [List.flatten_nil, List.length_nil, Int.natCast_zero, add_zero] at htot
    rw [List.map_nil, List.nil_append, putLoop_cons size g rest total acc htot, if_neg hg]
  | cons c cs ih =>
    intro g rest total acc hne hg htot
    have hlt : total < size := by
      simp only [List.flatten_cons, List.length_append] at htot
      push_cast at htot
      omega
    rw [List.map_cons, List.cons_append, putLoop_cons size _ _ total acc hlt]
    simp only [if_pos rfl]
    exact ih g rest _ _ (fun x hx => hne x (by simp [hx])) hg
      (by simp only [List.flatten_cons, List.length_append] at htot ⊢
          push_cast at htot ⊢
          omega)

/-- Overshooting the declared size within the last chunk aborts the loop
with the size-mismatch total. -/
theorem putLoop_sizeOver_of (size : Int) :
    ∀ (chunks : List Bytes) (rest : List Frame) (total : Int) (acc : Bytes),
      (∀ c ∈ chunks, c ≠ []) →
      total + ((chunks.dropLast.flatten).length : Int) < size →
      size < total + ((chunks.flatten).length : Int) →
      putLoop size (chunks.map (fun c => Frame.mk 'F' c) ++ rest) total acc =
        .sizeOver (total + (chunks.flatten).length) (acc ++ chunks.flatten) rest := by
  intro chunks
  induction chunks with
  | nil =>
    intro rest total acc _ h1 h2
    simp only [List.flatten_nil, List.length_nil, Int.natCast_zero, add_zero] at h1 h2
    omega
  | cons c cs ih =>
    intro rest total acc hne h1 h2
    match cs with
    | [] =>
      simp only [List.dropLast_single, List.flatten_nil, List.length_nil, Int.natCast_zero,
        add_zero] at h1
      simp only [List.flatten_cons, List.flatten_nil, List.append_nil] at h2 ⊢
      simp only [List.map_cons, List.map_nil, List.singleton_append]
      rw [putLoop_cons size _ rest total acc h1]
      simp only [if_pos rfl]
      rw [putLoop_done size rest (total + (c.length : Int)) (acc ++ c) (by omega),
        if_pos (show total + (c.length : Int) ≠ size by omega)]
      simp
    | c2 :: cs2 =>
      have hdl : (c :: c2 :: cs2).dropLast = c :: (c2 :: cs2).dropLast := by
        rw [List.dropLast_cons₂]
      have hlt : total < size := by
        rw [hdl] at h1
        simp only [List.flatten_cons, List.length_append] at h1
        push_cast at h1
        omega
      rw [List.map_cons, List.cons_append, putLoop_cons size _ _ total acc hlt]
      simp only [if_pos rfl]
      rw [ih rest (total + c.length) (acc ++ c) (fun x hx => hne x (by simp [hx]))
        (by rw [hdl] at h1
            simp only [List.flatten_cons, List.length_append] at h1 ⊢
            push_cast at h1 ⊢
            omega)
        (by simp only [List.flatten_cons, List.length_append] at h2 ⊢
            push_cast at h2 ⊢
            omega)]
      have h3 : (c :: c2 :: cs2).flatten = c ++ (c2 :: cs2).flatten := rfl
      rw [h3, List.length_append, List.append_assoc]
      push_cast
      ring_nf

/-! ## Lemmas: the PUT-RESUME and client GET loops -/

/-- The frames a resume-loop outcome leaves unconsumed. -/
def ResumeLoopRes.restOf : ResumeLoopRes → List Frame
  | .gotS _ _ r => r
  | .badFrame _ _ r => r
  | .connClosed _ => []

theorem resumeLoop_restOf_le : ∀ (input : List Frame) (acc : Bytes),
    (resumeLoop input acc).restOf.length ≤ input.length := by
  intro input
  induction input with
  | nil => intro acc; simp [resumeLoop, ResumeLoopRes.restOf]
  | cons f rest ih =>
    intro acc
    rw [resumeLoop]
    by_cases hS : f.type = 'S'
    · simp [hS, ResumeLoopRes.restOf]
    · by_cases hF : f.type = 'F'
      · simp only [hS, if_false, hF, if_true]
        exact le_trans (ih _) (by simp)
      · simp [hS, hF, ResumeLoopRes.restOf]

/-- `F` chunks followed by an `S` digest frame: the loop appends every
chunk and stops at the digest. -/
theorem resumeLoop_gotS_of :
    ∀ (chunks : List Bytes) (sha : Bytes) (rest : List Frame) (acc : Bytes),
      resumeLoop (chunks.map (fun c => Frame.mk 'F' c) ++ Frame.mk 'S' sha :: rest) acc =
        .gotS sha (acc ++ chunks.flatten) rest := by
  intro chunks
  induction chunks with
  | nil => intro sha rest acc; simp [resumeLoop]
  | cons c cs ih =>
    intro sha rest acc
    rw [List.map_cons, List.cons_append, resumeLoop]
    simp only [if_neg (by decide : ¬ ('F' = 'S')), if_pos rfl]
    rw [ih sha rest (acc ++ c)]
    simp [List.append_assoc]

theorem clientGetLoop_run :
    ∀ (chunks : List Bytes) (sha : Bytes) (rest : List Frame) (hashed dest : Bytes),
      clientGetLoop (chunks.map (fun c => Frame.mk 'F' c) ++ Frame.mk 'S' sha :: rest)
          hashed dest =
        .ok (hashed ++ chunks.flatten, sha, dest ++ chunks.flatten) := by
  intro chunks
  induction chunks with
  | nil => intro sha rest hashed dest; simp [clientGetLoop]
  | cons c cs ih =>
    intro sha rest hashed dest
    rw [List.map_cons, List.cons_append, clientGetLoop]
    simp only [if_neg (by decide : ¬ ('F' = 'S')), if_pos rfl]
    rw [ih sha rest (hashed ++ c) (dest ++ c)]
    simp [List.append_assoc]

/-! ## Lemmas: dispatched commands only consume from the stream -/

theorem handle_put_rest_le (H : Bytes → Bytes) (d : Dir) (payload : Bytes)
    (input : List Frame) : (handle_put H d payload input).rest.length ≤ input.length := by
  cases hp : parsePutMeta payload with
  | error e =>
    simp only [handle_put, hp]
    split <;> simp
  | ok m =>
    obtain ⟨fv, sv⟩ := m
    cases fv with
    | null => simp [handle_put, hp]
    | bool b => simp [handle_put, hp]
    | num n => simp [handle_put, hp]
    | arr xs => simp [handle_put, hp]
    | obj fs => simp [handle_put, hp]
    | str filename =>
      cases hs : sizeAsInt sv with
      | none => simp [handle_put, hp, hs]
      | some size =>
        have hle := putLoop_restOf_le size input 0 []
        simp only [handle_put, hp, hs]
        cases hq : putLoop size input 0 [] with
        | success data r =>
          rw [hq] at hle
          simp only [PutLoopRes.restOf] at hle
          simpa using hle
        | badFrame t r =>
          rw [hq] at hle
          simp only [PutLoopRes.restOf] at hle
          simpa using hle
        | sizeOver total data r =>
          rw [hq] at hle
          simp only [PutLoopRes.restOf] at hle
          simpa using hle
        | connClosed => simp

theorem handle_put_resume_rest_le (H : Bytes → Bytes) (d : Dir) (payload : Bytes)
    (input : List Frame) : (handle_put_resume H d payload input).rest.length ≤ input.length := by
  cases hp : parseResumeMeta payload with
  | error e =>
    simp only [handle_put_resume, hp]
    split <;> simp
  | ok m =>
    obtain ⟨filename, offset⟩ := m
    have hle := resumeLoop_restOf_le input []
    simp only [handle_put_resume, hp]
    cases hl : Dir.lookup d (partName filename) with
    | none => simp
    | some existing =>
      dsimp only
      by_cases hoff : offset ≠ (existing.length : Int)
      · rw [if_pos hoff]
      · rw [if_neg hoff]
        cases hq : resumeLoop input [] with
        | gotS clientSum appended r =>
          rw [hq] at hle
          dsimp only
          simp only [ResumeLoopRes.restOf] at hle
          split <;> simpa using hle
        | badFrame t appended r =>
          rw [hq] at hle
          dsimp only
          simp only [ResumeLoopRes.restOf] at hle
          simpa using hle
        | connClosed appended => simp

theorem dispatch_rest_le (H : Bytes → Bytes) (d : Dir) (f : Frame) (rest : List Frame) :
    (dispatch H d f rest).rest.length ≤ rest.length := by
  unfold dispatch
  split
  · simp
  · split
    · simp
    · split
      · simp
      · split
        · exact handle_put_rest_le H d f.payload rest
        · split
          · cases hp : parseResumeCmd f.payload with
            | error e =>
              simp only [hp]
              split <;> simp
            | ok m =>
              obtain ⟨filename, offset, dirn⟩ := m
              simp only [hp]
              split
              · cases hr : handle_get_resume H d filename offset with
                | none => simp
                | some frames => simp
              · split
                · exact handle_put_resume_rest_le H d f.payload rest
                · simp
          · split <;> simp

/-! ## Lemmas: the connection loop -/

/-- Any fuel at least the stream length computes the same loop result. -/
theorem handleClientAux_congr (H : Bytes → Bytes) :
    ∀ fuel (d : Dir) (input : List Frame), input.length ≤ fuel →
      handleClientAux H fuel d input = handleClient H d input := by
  intro fuel
  induction fuel using Nat.strong_induction_on with
  | _ fuel ih =>
    intro d input hle
    match fuel, input with
    | 0, input =>
      obtain rfl : input = [] := List.length_eq_zero.mp (Nat.le_zero.mp hle)
      rfl
    | fuel + 1, [] => rfl
    | fuel + 1, f :: rest =>
      have hd := dispatch_rest_le H d f rest
      have hfuel : rest.length ≤ fuel := by
        simp only [List.length_cons] at hle
        omega
      unfold handleClient
      simp only [List.length_cons, handleClientAux]
      by_cases hq : ((dispatch H d f rest).quit || (dispatch H d f rest).closed) = true
      · rw [if_pos hq, if_pos hq]
      · rw [if_neg hq, if_neg hq]
        rw [ih fuel (by omega) (dispatch H d f rest).dir (dispatch H d f rest).rest
            (le_trans hd hfuel),
          ih rest.length (by omega) (dispatch H d f rest).dir (dispatch H d f rest).rest hd]

/-- Unfolding the command loop one command at a time: when the dispatched
command neither quits nor kills the connection, the loop's total output is
the command's responses followed by the loop restarted on what the command
did not consume. -/
theorem handleClient_cons (H : Bytes → Bytes) (d : Dir) (f : Frame) (rest : List Frame)
    (h : ((dispatch H d f rest).quit || (dispatch H d f rest).closed) = false) :
    handleClient H d (f :: rest) =
      ((dispatch H d f rest).out ++
          (handleClient H (dispatch H d f rest).dir (dispatch H d f rest).rest).1,
        (handleClient H (dispatch H d f rest).dir (dispatch H d f rest).rest).2) := by
  have hd := dispatch_rest_le H d f rest
  unfold handleClient
  simp only [List.length_cons, handleClientAux]
  rw [if_neg (by rw [h]; simp)]
  rw [handleClientAux_congr H rest.length (dispatch H d f rest).dir (dispatch H d f rest).rest hd]
  rfl

/-- Unfolding the command loop at a terminal command (`Q`, transport
failure, or an uncaught exception): the loop stops with the command's
responses and directory. -/
theorem handleClient_cons_term (H : Bytes → Bytes) (d : Dir) (f : Frame) (rest : List Frame)
    (h : ((dispatch H d f rest).quit || (dispatch H d f rest).closed) = true) :
    handleClient H d (f :: rest) = ((dispatch H d f rest).out, (dispatch H d f rest).dir) := by
  unfold handleClient
  simp only [List.length_cons, handleClientAux]
  rw [if_pos h]

/-! ## Lemmas: dispatch by frame type -/

theorem dispatch_Q (H : Bytes → Bytes) (d : Dir) (p : Bytes) (rest : List Frame) :
    dispatch H d ⟨'Q', p⟩ rest = ⟨[⟨'O', str2bytes "Goodbye"⟩], d, rest, true, false⟩ := rfl

theorem dispatch_L (H : Bytes → Bytes) (d : Dir) (p : Bytes) (rest : List Frame) :
    dispatch H d ⟨'L', p⟩ rest = ⟨[handle_list d], d, rest, false, false⟩ := rfl

theorem dispatch_G (H : Bytes → Bytes) (d : Dir) (p : Bytes) (rest : List Frame) :
    dispatch H d ⟨'G', p⟩ rest = ⟨handle_get H d (stripWs p), d, rest, false, false⟩ := rfl

theorem dispatch_P (H : Bytes → Bytes) (d : Dir) (p : Bytes) (rest : List Frame) :
    dispatch H d ⟨'P', p⟩ rest = handle_put H d p rest := rfl

theorem dispatch_S (H : Bytes → Bytes) (d : Dir) (p : Bytes) (rest : List Frame) :
    dispatch H d ⟨'S', p⟩ rest =
      ⟨[⟨'E', str2bytes "Unexpected checksum message"⟩], d, rest, false, false⟩ := rfl

theorem dispatch_R (H : Bytes → Bytes) (d : Dir) (p : Bytes) (rest : List Frame) :
    dispatch H d ⟨'R', p⟩ rest =
      (match parseResumeCmd p with
       | .error e =>
         if e.isCaughtMeta then ⟨[⟨'E', invalidResumeMsg e⟩], d, rest, false, false⟩
         else ⟨[], d, rest, false, true⟩
       | .ok (filename, offset, dirn) =>
         if dirn = str2bytes "get" then
           match handle_get_resume H d filename offset with
           | some frames => ⟨frames, d, rest, false, false⟩
           | none => ⟨[], d, rest, false, true⟩
         else if dirn = str2bytes "put" then handle_put_resume H d p rest
         else ⟨[⟨'E', invalidDirectionMsg dirn⟩], d, rest, false, false⟩) := rfl

/-- Dispatch of a frame whose type is none of the nine protocol types
(and in fact anything outside `{Q,L,G,P,R,S}`): the unknown-type `E`. -/
theorem dispatch_unknown (H : Bytes → Bytes) (d : Dir) (f : Frame) (rest : List Frame)
    (h : f.type ∉ (['L', 'G', 'P', 'R', 'S', 'O', 'E', 'Q', 'F'] : List Char)) :
    dispatch H d f rest = ⟨[⟨'E', unknownTypeMsg f.type⟩], d, rest, false, false⟩ := by
  have hQ : f.type ≠ 'Q' := fun hc => h (by simp [hc])
  have hL : f.type ≠ 'L' := fun hc => h (by simp [hc])
  have hG : f.type ≠ 'G' := fun hc => h (by simp [hc])
  have hP : f.type ≠ 'P' := fun hc => h (by simp [hc])
  have hR : f.type ≠ 'R' := fun hc => h (by simp [hc])
  have hS : f.type ≠ 'S' := fun hc => h (by simp [hc])
  unfold dispatch
  rw [if_neg hQ, if_neg hL, if_neg hG, if_neg hP, if_neg hR, if_neg hS]

/-! ## Lemmas: successful pipe-metadata PUT -/

/-- A `PUT` with pipe metadata `"N|<total length>"` whose stream carries
exactly the declared bytes as nonempty `F` chunks: the upload is staged,
hashed, committed under `N`, and acknowledged with the digest. -/
theorem handle_put_pipe_success (H : Bytes → Bytes) (d : Dir) (N : Bytes)
    (chunks : List Bytes) (rest : List Frame) (hN : 124 ∉ N)
    (hne : ∀ c ∈ chunks, c ≠ []) :
    handle_put H d (N ++ 124 :: natBytes chunks.flatten.length)
        (chunks.map (fun c => Frame.mk 'F' c) ++ rest) =
      ⟨[⟨'O', str2bytes "Ready to receive"⟩, ⟨'O', H chunks.flatten⟩],
        (d.erase (partName N)).insert N chunks.flatten, rest, false, false⟩ := by
  simp only [handle_put, parsePutMeta_pipe hN chunks.flatten.length, sizeAsInt]
  rw [putLoop_success_of _ chunks rest 0 [] hne (by simp)]
  simp

/-! # Claim theorems -/

/-- C5: for every type byte and payload (within the frame invariant:
ASCII type, `len(payload) + 1 < 2^32`), `send_message` produces exactly
`length(4 bytes big-endian, value len(payload)+1) || type(1 byte) ||
payload`; `recv_message` applied to that encoding (followed by any
further stream bytes) returns `(type, payload)` and the remaining
stream; and `recv_message` fails with the framing `ValueError` whenever
the 4-byte length field is less than 1. -/
theorem codec_frame_roundtrip :
    (∀ (t : Char) (payload : Bytes), t.toNat < 128 → payload.length + 1 < 2 ^ 32 →
      send_message t payload =
        [(payload.length + 1) / 2 ^ 24 % 256, (payload.length + 1) / 2 ^ 16 % 256,
         (payload.length + 1) / 2 ^ 8 % 256, (payload.length + 1) % 256] ++
          t.toNat :: payload) ∧
    (∀ (t : Char) (payload rest : Bytes), t.toNat < 128 → payload.length + 1 < 2 ^ 32 →
      recv_message (send_message t payload ++ rest) = .ok ((t, payload), rest)) ∧
    (∀ (b0 b1 b2 b3 : Nat) (rest : Bytes),
      ((b0 * 256 + b1) * 256 + b2) * 256 + b3 < 1 →
      recv_message (b0 :: b1 :: b2 :: b3 :: rest) = .error .invalidLength) := by
  refine ⟨fun t payload _ _ => rfl, ?_, ?_⟩
  · intro t payload rest ht hlen
    have hval : ((((payload.length + 1) / 2 ^ 24 % 256) * 256 +
          ((payload.length + 1) / 2 ^ 16 % 256)) * 256 +
          ((payload.length + 1) / 2 ^ 8 % 256)) * 256 +
          ((payload.length + 1) % 256) = payload.length + 1 := by omega
    unfold send_message be32
    simp only [List.cons_append, List.nil_append, List.append_assoc]
    unfold recv_message
    dsimp only
    rw [hval]
    rw [if_neg (by omega)]
    rw [if_pos ht]
    rw [if_neg (by simp only [List.length_append]; omega)]
    rw [Char.ofNat_toNat]
    simp only [Nat.add_sub_cancel]
    rw [List.take_left, List.drop_left]
  · intro b0 b1 b2 b3 rest h
    unfold recv_message
    dsimp only
    rw [if_pos h]

/-- Witness for C5 at `t = 'G'`, `payload = "hi"`, trailing stream `[7]`,
and a zero length field. -/
theorem codec_frame_roundtrip_witness :
    recv_message (send_message 'G' [104, 105] ++ [7]) = .ok (('G', [104, 105]), [7]) ∧
    recv_message [0, 0, 0, 0, 9] = .error .invalidLength :=
  ⟨codec_frame_roundtrip.2.1 'G' [104, 105] [7] (by decide) (by decide),
   codec_frame_roundtrip.2.2 0 0 0 0 [9] (by decide)⟩

/-- C3: a PUT-RESUME whose supplied offset differs from the current size
of the existing `<filename>.part` file answers exactly
`E "Offset mismatch: expected <current>, got <offset>"`, leaves the whole
storage directory (hence the `.part` file) bit-for-bit unchanged,
performs no rename, consumes no further frames, and keeps the connection
open. -/
theorem put_resume_offset_mismatch (H : Bytes → Bytes) (d : Dir) (payload : Bytes)
    (input : List Frame) (n p : Bytes) (offset : Int)
    (hparse : parseResumeMeta payload = .ok (n, offset))
    (hpart : Dir.lookup d (partName n) = some p)
    (hne : offset ≠ (p.length : Int)) :
    handle_put_resume H d payload input =
      ⟨[⟨'E', offsetMismatchMsg p.length offset⟩], d, input, false, false⟩ := by
  simp only [handle_put_resume, hparse, hpart]
  rw [if_pos hne]

/-- Witness for C3: `.part` of size 2, requested offset 3. -/
theorem put_resume_offset_mismatch_witness :
    handle_put_resume (fun b => b) [(partName [97], [5, 6])] (str2bytes "a|3|put") [] =
      ⟨[⟨'E', offsetMismatchMsg 2 3⟩], [(partName [97], [5, 6])], [], false, false⟩ :=
  put_resume_offset_mismatch (fun b => b) [(partName [97], [5, 6])] (str2bytes "a|3|put") []
    [97] [5, 6] 3 (by rfl) (by rfl) (by decide)

/-- C4: a frame whose type byte is not one of `{L,G,P,R,S,O,E,Q,F}` is
answered with `E "Unknown message type: <type>"`, the dispatcher stays in
the command-await state (no quit, no close, directory and stream
untouched), and the connection loop continues exactly as if the next
command had arrived first — so the next valid command still succeeds. -/
theorem unknown_type_stays_in_loop (H : Bytes → Bytes) (d : Dir) (f : Frame)
    (rest : List Frame)
    (h : f.type ∉ (['L', 'G', 'P', 'R', 'S', 'O', 'E', 'Q', 'F'] : List Char)) :
    dispatch H d f rest = ⟨[⟨'E', unknownTypeMsg f.type⟩], d, rest, false, false⟩ ∧
    handleClient H d (f :: rest) =
      (⟨'E', unknownTypeMsg f.type⟩ :: (handleClient H d rest).1,
        (handleClient H d rest).2) := by
  have hd := dispatch_unknown H d f rest h
  refine ⟨hd, ?_⟩
  rw [handleClient_cons H d f rest (by rw [hd]; rfl)]
  rw [hd]
  simp

/-- Witness for C4: unknown type `'X'` followed by a valid `LIST`, which
still succeeds with its `O` listing. -/
theorem unknown_type_stays_in_loop_witness :
    (dispatch (fun b => b) [] ⟨'X', []⟩ [⟨'L', []⟩] =
      ⟨[⟨'E', unknownTypeMsg 'X'⟩], [], [⟨'L', []⟩], false, false⟩ ∧
    handleClient (fun b => b) [] [⟨'X', []⟩, ⟨'L', []⟩] =
      (⟨'E', unknownTypeMsg 'X'⟩ :: (handleClient (fun b => b) [] [⟨'L', []⟩]).1,
        (handleClient (fun b => b) [] [⟨'L', []⟩]).2)) ∧
    handleClient (fun b => b) [] [⟨'X', []⟩, ⟨'L', []⟩] =
      ([⟨'E', unknownTypeMsg 'X'⟩, ⟨'O', [10]⟩], []) :=
  ⟨unknown_type_stays_in_loop (fun b => b) [] ⟨'X', []⟩ [⟨'L', []⟩] (by decide), by rfl⟩

/-- C1: for any content `C` (delivered as nonempty `F` chunks whose
concatenation is `C`) and any flat-namespace filename `N` (no pipe, which
the pipe metadata encoding reserves), a `PUT(N, C)` commits exactly `C`
under `N` and acknowledges with the digest of `C`; a `GET(N)` on the
resulting store streams frames whose `F` payloads concatenate back to
`C` and whose `S` frame carries the digest of `C`.  With `H` standing
for SHA-256, the digest at PUT completion, the digest in the GET `S`
frame, and SHA-256(`C`) are all the same value `H C`. -/
theorem put_then_get_roundtrip (H : Bytes → Bytes) (d : Dir) (N : Bytes)
    (chunks : List Bytes) (hN : 124 ∉ N) (hne : ∀ c ∈ chunks, c ≠ []) :
    let C := chunks.flatten
    let r := handle_put H d (N ++ 124 :: natBytes C.length)
      (chunks.map (fun c => Frame.mk 'F' c))
    r.out = [⟨'O', str2bytes "Ready to receive"⟩, ⟨'O', H C⟩] ∧
    r.rest = [] ∧ r.closed = false ∧
    Dir.lookup r.dir N = some C ∧
    handle_get H r.dir N =
      ⟨'O', jsonSizeMeta C.length⟩ ::
        (chunksOf C).map (fun c => Frame.mk 'F' c) ++ [⟨'S', H C⟩] ∧
    (chunksOf C).flatten = C := by
  intro C r
  have hput := handle_put_pipe_success H d N chunks [] hN hne
  rw [List.append_nil] at hput
  have hr : r = ⟨[⟨'O', str2bytes "Ready to receive"⟩, ⟨'O', H C⟩],
      (d.erase (partName N)).insert N C, [], false, false⟩ := hput
  refine ⟨by rw [hr], by rw [hr], by rw [hr], ?_, ?_, chunksOf_flatten C⟩
  · rw [hr]
    exact Dir.lookup_insert_self _ N C
  · rw [hr]
    simp only [handle_get, Dir.lookup_insert_self]

/-- Witness for C1: `N = "a"`, `C = [1,2,3]` in one chunk, `H` the
identity digest. -/
theorem put_then_get_roundtrip_witness :
    (handle_put (fun b => b) [] ([97] ++ 124 :: natBytes 3) [⟨'F', [1, 2, 3]⟩]).out =
      [⟨'O', str2bytes "Ready to receive"⟩, ⟨'O', [1, 2, 3]⟩] ∧
    (handle_put (fun b => b) [] ([97] ++ 124 :: natBytes 3) [⟨'F', [1, 2, 3]⟩]).rest = [] ∧
    (handle_put (fun b => b) [] ([97] ++ 124 :: natBytes 3) [⟨'F', [1, 2, 3]⟩]).closed = false ∧
    Dir.lookup (handle_put (fun b => b) [] ([97] ++ 124 :: natBytes 3)
        [⟨'F', [1, 2, 3]⟩]).dir [97] = some [1, 2, 3] ∧
    handle_get (fun b => b) (handle_put (fun b => b) [] ([97] ++ 124 :: natBytes 3)
        [⟨'F', [1, 2, 3]⟩]).dir [97] =
      ⟨'O', jsonSizeMeta 3⟩ ::
        (chunksOf [1, 2, 3]).map (fun c => Frame.mk 'F' c) ++ [⟨'S', [1, 2, 3]⟩] ∧
    (chunksOf [1, 2, 3]).flatten = [1, 2, 3] :=
  put_then_get_roundtrip (fun b => b) [] [97] [[1, 2, 3]] (by decide) (by decide)

/-- C9: splitting an upload of content `C` into a staged `.part` holding
the first `K` bytes followed by a PUT-RESUME carrying the remaining
bytes (and the client's digest of the whole content) commits the same
file and reports the same digest as a single-shot PUT of all of `C`:
both commit exactly `C` under `N` and both answer a final `O` carrying
`H C`. -/
theorem split_upload_equals_single_put (H : Bytes → Bytes) (d : Dir) (N C : Bytes)
    (K : Nat) (hN : 124 ∉ N) (hK : K ≤ C.length) :
    let single := handle_put H d (N ++ 124 :: natBytes C.length)
      ((chunksOf C).map (fun c => Frame.mk 'F' c))
    let resumed := handle_put_resume H (d.insert (partName N) (C.take K))
      (N ++ 124 :: (natBytes K ++ 124 :: str2bytes "put"))
      ((chunksOf (C.drop K)).map (fun c => Frame.mk 'F' c) ++ [⟨'S', H C⟩])
    Dir.lookup single.dir N = some C ∧ Dir.lookup resumed.dir N = some C ∧
    single.out = [⟨'O', str2bytes "Ready to receive"⟩, ⟨'O', H C⟩] ∧
    resumed.out = [⟨'O', jsonResumeAck K⟩, ⟨'O', H C⟩] := by
  intro single resumed
  have hput := handle_put_pipe_success H d N (chunksOf C) [] hN (chunksOf_ne_nil C)
  rw [chunksOf_flatten C, List.append_nil] at hput
  have hsingle : single = ⟨[⟨'O', str2bytes "Ready to receive"⟩, ⟨'O', H C⟩],
      (d.erase (partName N)).insert N C, [], false, false⟩ := hput
  have hlen : (C.take K).length = K := by
    rw [List.length_take]
    omega
  have hres : resumed = ⟨[⟨'O', jsonResumeAck K⟩, ⟨'O', H C⟩],
      ((d.insert (partName N) (C.take K)).erase (partName N)).insert N C, [], false, false⟩ := by
    show handle_put_resume _ _ _ _ = _
    simp only [handle_put_resume, parseResumeMeta_pipe hN K, Dir.lookup_insert_self]
    rw [if_neg (by rw [hlen]; simp)]
    rw [resumeLoop_gotS_of (chunksOf (C.drop K)) (H C) [] []]
    simp only [List.nil_append, chunksOf_flatten, List.take_append_drop]
    simp
  refine ⟨?_, ?_, by rw [hsingle], by rw [hres]⟩
  · rw [hsingle]
    exact Dir.lookup_insert_self _ N C
  · rw [hres]
    exact Dir.lookup_insert_self _ N C

/-- Witness for C9: `C = [1,2,3,4]` split at `K = 2`. -/
theorem split_upload_equals_single_put_witness :
    Dir.lookup (handle_put (fun b => b) [] ([97] ++ 124 :: natBytes 4)
        ((chunksOf [1, 2, 3, 4]).map (fun c => Frame.mk 'F' c))).dir [97] =
      some [1, 2, 3, 4] ∧
    Dir.lookup (handle_put_resume (fun b => b)
        (Dir.insert [] (partName [97]) ([1, 2, 3, 4].take 2))
        ([97] ++ 124 :: (natBytes 2 ++ 124 :: str2bytes "put"))
        ((chunksOf ([1, 2, 3, 4].drop 2)).map (fun c => Frame.mk 'F' c) ++
          [⟨'S', [1, 2, 3, 4]⟩])).dir [97] = some [1, 2, 3, 4] ∧
    (handle_put (fun b => b) [] ([97] ++ 124 :: natBytes 4)
        ((chunksOf [1, 2, 3, 4]).map (fun c => Frame.mk 'F' c))).out =
      [⟨'O', str2bytes "Ready to receive"⟩, ⟨'O', [1, 2, 3, 4]⟩] ∧
    (handle_put_resume (fun b => b)
        (Dir.insert [] (partName [97]) ([1, 2, 3, 4].take 2))
        ([97] ++ 124 :: (natBytes 2 ++ 124 :: str2bytes "put"))
        ((chunksOf ([1, 2, 3, 4].drop 2)).map (fun c => Frame.mk 'F' c) ++
          [⟨'S', [1, 2, 3, 4]⟩])).out =
      [⟨'O', jsonResumeAck 2⟩, ⟨'O', [1, 2, 3, 4]⟩] :=
  split_upload_equals_single_put (fun b => b) [] [97] [1, 2, 3, 4] 2 (by decide) (by decide)

/-- C6: during a PUT (pipe metadata `"N|sz"`), if a non-`F` frame arrives
while the received byte count is still below the declared size, or the
count overshoots the declared size, the server aborts: the response ends
in an `E`, the storage directory afterwards is `d` with `<N>.part`
deleted — so no committed file named `N` is created or replaced by that
PUT — and the connection stays open. -/
theorem put_abort_deletes_part (H : Bytes → Bytes) (d : Dir) (N : Bytes) (sz : Nat)
    (hN : 124 ∉ N) :
    (∀ (chunks : List Bytes) (g : Frame) (rest' : List Frame),
      (∀ c ∈ chunks, c ≠ []) → g.type ≠ 'F' →
      ((chunks.flatten.length : Int) < (sz : Int)) →
      handle_put H d (N ++ 124 :: natBytes sz)
          (chunks.map (fun c => Frame.mk 'F' c) ++ g :: rest') =
        ⟨[⟨'O', str2bytes "Ready to receive"⟩,
            ⟨'E', putFailedMsg (expectedChunkMsg g.type)⟩],
          d.erase (partName N), rest', false, false⟩) ∧
    (∀ (chunks : List Bytes) (rest' : List Frame),
      (∀ c ∈ chunks, c ≠ []) →
      ((chunks.dropLast.flatten.length : Int) < (sz : Int)) →
      ((sz : Int) < (chunks.flatten.length : Int)) →
      handle_put H d (N ++ 124 :: natBytes sz)
          (chunks.map (fun c => Frame.mk 'F' c) ++ rest') =
        ⟨[⟨'O', str2bytes "Ready to receive"⟩,
            ⟨'E', putFailedMsg (sizeMismatchMsg sz chunks.flatten.length)⟩],
          d.erase (partName N), rest', false, false⟩) ∧
    Dir.lookup (d.erase (partName N)) (partName N) = none ∧
    Dir.lookup (d.erase (partName N)) N = Dir.lookup d N := by
  refine ⟨?_, ?_, Dir.lookup_erase_self d (partName N),
    Dir.lookup_erase_ne d (partName_ne_self N)⟩
  · intro chunks g rest' hne hg hlt
    simp only [handle_put, parsePutMeta_pipe hN sz, sizeAsInt]
    rw [putLoop_badFrame_of (sz : Int) chunks g rest' 0 [] hne hg (by omega)]
  · intro chunks rest' hne h1 h2
    simp only [handle_put, parsePutMeta_pipe hN sz, sizeAsInt]
    rw [putLoop_sizeOver_of (sz : Int) chunks rest' 0 [] hne (by omega) (by omega)]
    simp

/-- Witness for C6: a stray `Q` frame two bytes into a declared five
(with a pre-existing `.part` and committed file showing what is and is
not touched), and an upload overshooting a declared size of one. -/
theorem put_abort_deletes_part_witness :
    (handle_put (fun b => b) [(partName [97], [9]), ([97], [7])]
        ([97] ++ 124 :: natBytes 5) [⟨'F', [1, 2]⟩, ⟨'Q', []⟩] =
      ⟨[⟨'O', str2bytes "Ready to receive"⟩,
          ⟨'E', putFailedMsg (expectedChunkMsg 'Q')⟩],
        Dir.erase [(partName [97], [9]), ([97], [7])] (partName [97]), [], false, false⟩) ∧
    (handle_put (fun b => b) [(partName [97], [9]), ([97], [7])]
        ([97] ++ 124 :: natBytes 1) [⟨'F', [1, 2]⟩] =
      ⟨[⟨'O', str2bytes "Ready to receive"⟩,
          ⟨'E', putFailedMsg (sizeMismatchMsg 1 2)⟩],
        Dir.erase [(partName [97], [9]), ([97], [7])] (partName [97]), [], false, false⟩) ∧
    Dir.lookup (Dir.erase [(partName [97], [9]), ([97], [7])] (partName [97]))
      (partName [97]) = none ∧
    Dir.lookup (Dir.erase [(partName [97], [9]), ([97], [7])] (partName [97])) [97] =
      Dir.lookup [(partName [97], [9]), ([97], [7])] [97] :=
  ⟨(put_abort_deletes_part (fun b => b) [(partName [97], [9]), ([97], [7])] [97] 5
      (by decide)).1 [[1, 2]] ⟨'Q', []⟩ [] (by decide) (by decide) (by decide),
   (put_abort_deletes_part (fun b => b) [(partName [97], [9]), ([97], [7])] [97] 1
      (by decide)).2.1 [[1, 2]] [] (by decide) (by decide) (by decide),
   (put_abort_deletes_part (fun b => b) [(partName [97], [9]), ([97], [7])] [97] 5
      (by decide)).2.2.1,
   (put_abort_deletes_part (fun b => b) [(partName [97], [9]), ([97], [7])] [97] 5
      (by decide)).2.2.2⟩

/-- C7: on a GET-RESUME with a valid offset (`0 ≤ offset < size`), the
digest the server sends in the `S` frame is the hash of only the bytes
transmitted in the resumed range (`content.drop offset`), not of the
whole file; the resuming client accumulates its digest over its local
prefix `L` plus the received range and compares that (`H (L ++ range)`)
against the server's range digest. -/
theorem get_resume_digest_scope (H : Bytes → Bytes) (d : Dir) (N content L : Bytes)
    (offset : Int) (h0 : 0 ≤ offset) (hlt : offset < (content.length : Int))
    (hl : Dir.lookup d N = some content) :
    let range := content.drop offset.toNat
    let frames := ⟨'O', jsonSizeOffsetMeta content.length offset⟩ ::
      (chunksOf range).map (fun c => Frame.mk 'F' c) ++ [⟨'S', H range⟩]
    handle_get_resume H d N offset = some frames ∧
    client_get_resume (some L) frames = .ok (L ++ range, H range, L ++ range) ∧
    client_get_file_resume H (some L) frames =
      (if H (L ++ range) = H range then .ok (H (L ++ range), L ++ range)
       else .error (checksumMismatchMsg (H (L ++ range)) (H range))) := by
  intro range frames
  have h2 : client_get_resume (some L) frames = .ok (L ++ range, H range, L ++ range) := by
    show client_get_resume (some L) (Frame.mk 'O' (jsonSizeOffsetMeta content.length offset) ::
      ((chunksOf range).map (fun c => Frame.mk 'F' c) ++ [⟨'S', H range⟩])) = _
    simp only [client_get_resume]
    rw [if_neg (by decide), if_neg (by decide)]
    rw [show (some L).getD [] = L from rfl]
    rw [clientGetLoop_run (chunksOf range) (H range) [] L L]
    rw [chunksOf_flatten]
  refine ⟨?_, h2, ?_⟩
  · simp only [handle_get_resume, hl]
    rw [if_neg (by omega), if_neg (by omega)]
  · simp only [client_get_file_resume, h2]

/-- Witness for C7: file `[1,2,3,4]`, offset 2, local prefix `[1,2]`;
with the identity digest the server's range digest is `[3,4]` while the
client accumulates `[1,2,3,4]`, so the comparison fails — the known
digest-scope inconsistency. -/
theorem get_resume_digest_scope_witness :
    handle_get_resume (fun b => b) [([97], [1, 2, 3, 4])] [97] 2 =
      some (⟨'O', jsonSizeOffsetMeta 4 2⟩ ::
        (chunksOf [3, 4]).map (fun c => Frame.mk 'F' c) ++ [⟨'S', [3, 4]⟩]) ∧
    client_get_resume (some [1, 2])
        (⟨'O', jsonSizeOffsetMeta 4 2⟩ ::
          (chunksOf [3, 4]).map (fun c => Frame.mk 'F' c) ++ [⟨'S', [3, 4]⟩]) =
      .ok ([1, 2] ++ [3, 4], [3, 4], [1, 2] ++ [3, 4]) ∧
    client_get_file_resume (fun b => b) (some [1, 2])
        (⟨'O', jsonSizeOffsetMeta 4 2⟩ ::
          (chunksOf [3, 4]).map (fun c => Frame.mk 'F' c) ++ [⟨'S', [3, 4]⟩]) =
      (if ([1, 2] ++ [3, 4] : Bytes) = [3, 4] then .ok ([1, 2] ++ [3, 4], [1, 2] ++ [3, 4])
       else .error (checksumMismatchMsg ([1, 2] ++ [3, 4]) [3, 4])) :=
  get_resume_digest_scope (fun b => b) [([97], [1, 2, 3, 4])] [97] [1, 2, 3, 4] [1, 2] 2
    (by decide) (by decide) (by rfl)

/-! ## Lemmas: listing lines -/

theorem natBytes_inj {s1 s2 : Nat} (h : natBytes s1 = natBytes s2) : s1 = s2 := by
  have := congrArg digitsVal h
  rwa [digitsVal_natBytes, digitsVal_natBytes] at this

/-- A `name|size` line determines the name and the size: the size render
contains no pipe, so the pipe written by the line is the last pipe. -/
theorem append_pipe_natBytes_inj : ∀ {n1 n2 : Bytes} {s1 s2 : Nat},
    n1 ++ 124 :: natBytes s1 = n2 ++ 124 :: natBytes s2 → n1 = n2 ∧ s1 = s2 := by
  intro n1
  induction n1 with
  | nil =>
    intro n2 s1 s2 h
    cases n2 with
    | nil =>
      simp only [List.nil_append, List.cons.injEq] at h
      exact ⟨rfl, natBytes_inj h.2⟩
    | cons b n2 =>
      simp only [List.nil_append, List.cons_append, List.cons.injEq] at h
      exfalso
      apply not_pipe_natBytes s1
      rw [h.2]
      simp
  | cons a n1 ih =>
    intro n2 s1 s2 h
    cases n2 with
    | nil =>
      simp only [List.cons_append, List.nil_append, List.cons.injEq] at h
      exfalso
      apply not_pipe_natBytes s2
      rw [← h.2]
      simp
    | cons b n2 =>
      simp only [List.cons_append, List.cons.injEq] at h
      obtain ⟨rfl, ht⟩ := h
      obtain ⟨h1, h2⟩ := ih ht
      exact ⟨by rw [h1], h2⟩

/-- In a directory with distinct names, an entry is determined by its name. -/
theorem eq_of_mem_of_fst_eq : ∀ {l : List (Bytes × Bytes)},
    ((l.map Prod.fst).Nodup) → ∀ {x y : Bytes × Bytes},
    x ∈ l → y ∈ l → x.1 = y.1 → x = y := by
  intro l
  induction l with
  | nil => intro _ x y hx; simp at hx
  | cons e l ih =>
    intro h x y hx hy hf
    simp only [List.map_cons, List.nodup_cons] at h
    obtain ⟨he, hl⟩ := h
    rcases List.mem_cons.mp hx with rfl | hx'
    · rcases List.mem_cons.mp hy with rfl | hy'
      · rfl
      · exfalso
        apply he
        rw [hf]
        exact List.mem_map_of_mem Prod.fst hy'
    · rcases List.mem_cons.mp hy with rfl | hy'
      · exfalso
        apply he
        rw [← hf]
        exact List.mem_map_of_mem Prod.fst hx'
      · exact ih hl hx' hy' hf

theorem count_eq_one_of_mem_nd : ∀ {l : List Bytes}, l.Nodup → ∀ {a : Bytes}, a ∈ l →
    l.count a = 1 := by
  intro l
  induction l with
  | nil => intro _ a ha; simp at ha
  | cons b l ih =>
    intro hn a ha
    rw [List.nodup_cons] at hn
    rcases List.mem_cons.mp ha with rfl | ha'
    · rw [List.count_cons_self, List.count_eq_zero.mpr hn.1]
    · have hne : a ≠ b := fun hc => hn.1 (by rw [← hc]; exact ha')
      rw [List.count_cons_of_ne hne]
      exact ih hn.2 ha'

theorem listLines_nodup {d : Dir} (hnd : (d.map Prod.fst).Nodup) :
    (listLines d).Nodup := by
  unfold listLines
  apply List.Nodup.map_on
  · intro x hx y hy hxy
    exact eq_of_mem_of_fst_eq hnd (List.mem_of_mem_filter hx)
      (List.mem_of_mem_filter hy) (append_pipe_natBytes_inj hxy).1
  · exact (List.Nodup.of_map _ hnd).filter _

/-- C8: the LIST response is always an `O` (never an error), its payload
is the `name|size` lines joined by newlines plus a trailing newline;
every committed entry (name not ending in `.part`) appears exactly once
as its `name|size` line; every line in the listing comes from a
committed entry (so no `.part`-suffixed name is ever listed); and on an
empty directory the response is `O` with the empty listing (a bare
newline). -/
theorem list_committed_files (d : Dir) (hnd : (d.map Prod.fst).Nodup) :
    (handle_list d).type = 'O' ∧
    (handle_list d).payload = List.intercalate [10] (listLines d) ++ [10] ∧
    (∀ n c, (n, c) ∈ d → ¬ dotPart.isSuffixOf n →
      (listLines d).count (n ++ 124 :: natBytes c.length) = 1) ∧
    (∀ s ∈ listLines d, ∃ n c, (n, c) ∈ d ∧ ¬ dotPart.isSuffixOf n ∧
      s = n ++ 124 :: natBytes c.length) ∧
    handle_list [] = ⟨'O', [10]⟩ := by
  refine ⟨rfl, rfl, ?_, ?_, rfl⟩
  · intro n c hmem hpart
    apply count_eq_one_of_mem_nd (listLines_nodup hnd)
    unfold listLines
    have hfm : ((n, c) : Bytes × Bytes) ∈
        d.filter (fun e => ¬ dotPart.isSuffixOf e.1) := by
      rw [List.mem_filter]
      exact ⟨hmem, by simpa using hpart⟩
    exact List.mem_map_of_mem _ hfm
  · intro s hs
    unfold listLines at hs
    obtain ⟨e, he, rfl⟩ := List.mem_map.mp hs
    obtain ⟨hed, hep⟩ := List.mem_filter.mp he
    exact ⟨e.1, e.2, hed, by simpa using hep, rfl⟩

/-- Witness for C8: a directory with a committed `"a"`, a staged
`"b.part"` and an empty committed `"c"`. -/
theorem list_committed_files_witness :
    (handle_list [([97], [1]), (partName [98], [2, 2]), ([99], [])]).type = 'O' ∧
    (listLines [([97], [1]), (partName [98], [2, 2]), ([99], [])]).count
      ([97] ++ 124 :: natBytes 1) = 1 ∧
    handle_list [] = ⟨'O', [10]⟩ :=
  ⟨(list_committed_files [([97], [1]), (partName [98], [2, 2]), ([99], [])] (by decide)).1,
   (list_committed_files [([97], [1]), (partName [98], [2, 2]), ([99], [])]
      (by decide)).2.2.1 [97] [1] (by decide) (by decide),
   (list_committed_files [] (by decide)).2.2.2.2⟩

/-- C10: the module-level convenience `put_file` with `resume=True`
always sends offset 0 in its RESUME command — the payload is the literal
`"<filename>|0|put"` whatever the server-side `.part` file's size — so
the server refuses the resume with an offset-mismatch `E` whenever its
partial file is nonempty, and with a no-partial `E` when none exists:
the resumed upload can only succeed against an empty partial file. -/
theorem module_put_resume_offset_always_zero (filename : Bytes) (size : Nat)
    (hN : 124 ∉ filename) :
    module_put_file_request filename size true =
      ⟨'R', filename ++ 124 :: (natBytes 0 ++ 124 :: str2bytes "put")⟩ ∧
    (∀ (H : Bytes → Bytes) (d : Dir) (input : List Frame) (p : Bytes),
      Dir.lookup d (partName filename) = some p → p ≠ [] →
      handle_put_resume H d (module_put_file_request filename size true).payload input =
        ⟨[⟨'E', offsetMismatchMsg p.length 0⟩], d, input, false, false⟩) ∧
    (∀ (H : Bytes → Bytes) (d : Dir) (input : List Frame),
      Dir.lookup d (partName filename) = none →
      handle_put_resume H d (module_put_file_request filename size true).payload input =
        ⟨[⟨'E', noPartMsg filename⟩], d, input, false, false⟩) := by
  have hreq : module_put_file_request filename size true =
      ⟨'R', filename ++ 124 :: (natBytes 0 ++ 124 :: str2bytes "put")⟩ := by
    unfold module_put_file_request clientPutRequest intBytes
    norm_num
  refine ⟨hreq, ?_, ?_⟩
  · intro H d input p hl hp
    have hplen : 1 ≤ p.length := by
      cases p with
      | nil => exact absurd rfl hp
      | cons a l => simp
    rw [hreq]
    simp only [handle_put_resume, parseResumeMeta_pipe hN 0, hl]
    rw [if_pos (by push_cast; omega)]
    norm_num
  · intro H d input hl
    rw [hreq]
    simp only [handle_put_resume, parseResumeMeta_pipe hN 0, hl]

/-- Witness for C10: resuming `"a"` against a one-byte server partial
(offset mismatch) and against no partial at all. -/
theorem module_put_resume_offset_always_zero_witness :
    module_put_file_request [97] 5 true =
      ⟨'R', [97] ++ 124 :: (natBytes 0 ++ 124 :: str2bytes "put")⟩ ∧
    handle_put_resume (fun b => b) [(partName [97], [5])]
        (module_put_file_request [97] 5 true).payload [] =
      ⟨[⟨'E', offsetMismatchMsg 1 0⟩], [(partName [97], [5])], [], false, false⟩ ∧
    handle_put_resume (fun b => b) [] (module_put_file_request [97] 5 true).payload [] =
      ⟨[⟨'E', noPartMsg [97]⟩], [], [], false, false⟩ :=
  ⟨(module_put_resume_offset_always_zero [97] 5 (by decide)).1,
   (module_put_resume_offset_always_zero [97] 5 (by decide)).2.1 (fun b => b)
     [(partName [97], [5])] [] [5] (by rfl) (by decide),
   (module_put_resume_offset_always_zero [97] 5 (by decide)).2.2 (fun b => b) [] [] (by rfl)⟩

/-- C2 counterexample: the PUT metadata payload `"3"` is valid JSON of
the wrong shape; Python subscripts the decoded integer and raises
`TypeError`, which the `except (ValueError, json.JSONDecodeError)` guard
does not catch.  Contrary to the claim, the failure is not converted to
an `E` response (no frame at all is sent) and the loop does not
continue: the following valid `LIST` command is never processed and the
connection terminates even though no framing or transport failure
occurred. -/
theorem handler_failure_counterexample :
    handleClient (fun b => b) [] [⟨'P', str2bytes "3"⟩, ⟨'L', []⟩] = ([], []) ∧
    (dispatch (fun b => b) [] ⟨'P', str2bytes "3"⟩ [⟨'L', []⟩]).closed = true ∧
    (dispatch (fun b => b) [] ⟨'P', str2bytes "3"⟩ [⟨'L', []⟩]).out = [] :=
  ⟨rfl, rfl, rfl⟩

/-- `parseResumeCmd` on a pipe payload with direction `"put"`. -/
theorem parseResumeCmd_pipe_put {N : Bytes} (h : 124 ∉ N) (k : Nat) :
    parseResumeCmd (N ++ 124 :: (natBytes k ++ 124 :: str2bytes "put")) =
      .ok (N, (k : Int), str2bytes "put") :=
  parseResumeCmd_pipe h (by decide) k

/-- An element on which the predicate fails survives `dropWhile`. -/
theorem mem_dropWhile_of_not {p : Nat → Bool} {b : Nat} {l : List Nat}
    (hb : b ∈ l) (hp : p b = false) : b ∈ l.dropWhile p := by
  induction l with
  | nil => exact absurd hb (List.not_mem_nil b)
  | cons a l ih =>
    rw [List.dropWhile_cons]
    by_cases ha : p a = true
    · rw [if_pos ha]
      rcases List.mem_cons.mp hb with h | h
      · rw [h] at hp
        rw [hp] at ha
        exact absurd ha (by decide)
      · exact ih h
    · rw [if_neg ha]
      exact hb

/-- A non-whitespace byte survives `str.strip()`. -/
theorem mem_stripWs_of_not_ws {b : Nat} {l : Bytes} (hb : b ∈ l)
    (hws : isWsByte b = false) : b ∈ stripWs l := by
  unfold stripWs
  exact List.mem_reverse.mpr
    (mem_dropWhile_of_not (List.mem_reverse.mpr (mem_dropWhile_of_not hb hws)) hws)

/-- A byte that is neither a digit nor an underscore falsifies `usTail`
(length-bounded recursion to cross the underscore two-step). -/
theorem usTail_poison_aux {p : Nat} (hd : isDigitByte p = false) (h95 : p ≠ 95) :
    ∀ (n : Nat) (l : Bytes), l.length ≤ n → p ∈ l → usTail l = false := by
  intro n
  induction n with
  | zero =>
    intro l hl hb
    have hl0 : l = [] := List.eq_nil_of_length_eq_zero (Nat.le_zero.mp hl)
    rw [hl0] at hb
    exact absurd hb (List.not_mem_nil p)
  | succ n ih =>
    intro l hl hb
    cases l with
    | nil => exact absurd hb (List.not_mem_nil p)
    | cons a rest =>
      by_cases ha : a = 95
      · subst ha
        cases rest with
        | nil =>
          rcases List.mem_cons.mp hb with h | h
          · exact absurd h h95
          · exact absurd h (List.not_mem_nil p)
        | cons c rest2 =>
          simp only [usTail]
          rw [if_pos trivial]
          rcases List.mem_cons.mp hb with h | h
          · exact absurd h h95
          · rcases List.mem_cons.mp h with h2 | h2
            · rw [← h2, hd]
              rfl
            · rw [ih rest2 (by simp only [List.length_cons] at hl ⊢; omega) h2,
                Bool.and_false]
      · rw [usTail.eq_def]
        dsimp only
        rw [if_neg ha]
        rcases List.mem_cons.mp hb with h | h
        · rw [← h, hd]
          rfl
        · rw [ih rest (by simp only [List.length_cons] at hl; omega) h, Bool.and_false]

theorem usTail_poison {p : Nat} {l : Bytes} (hb : p ∈ l) (hd : isDigitByte p = false)
    (h95 : p ≠ 95) : usTail l = false :=
  usTail_poison_aux hd h95 l.length l (le_refl _) hb

theorem usDigits_poison {p : Nat} {l : Bytes} (hb : p ∈ l) (hd : isDigitByte p = false)
    (h95 : p ≠ 95) : usDigits l = false := by
  cases l with
  | nil => exact absurd hb (List.not_mem_nil p)
  | cons a rest =>
    show (isDigitByte a && usTail rest) = false
    rcases List.mem_cons.mp hb with h | h
    · rw [← h, hd]
      rfl
    · rw [usTail_poison h hd h95, Bool.and_false]

theorem pyIntBody_none_of_poison {p : Nat} {l : Bytes} (hb : p ∈ l)
    (hd : isDigitByte p = false) (h95 : p ≠ 95) : pyIntBody l = none := by
  unfold pyIntBody
  rw [usDigits_poison hb hd h95]
  rfl

/-- `int()` fails on any string containing a byte outside the literal
alphabet (digits, whitespace, sign, underscore). -/
theorem pyInt_none_of_poison {p : Nat} {l : Bytes} (hb : p ∈ l)
    (hpo : pyIntLiteralByte p = false) : pyInt l = none := by
  have h' := hpo
  unfold pyIntLiteralByte at h'
  simp only [Bool.or_eq_false_iff, decide_eq_false_iff_not] at h'
  obtain ⟨⟨⟨⟨hd, hws⟩, h43⟩, h45⟩, h95⟩ := h'
  have hs : p ∈ stripWs l := mem_stripWs_of_not_ws hb hws
  unfold pyInt
  simp only
  by_cases h1 : (stripWs l).headD 0 = 45
  · rw [if_pos h1]
    cases hsl : stripWs l with
    | nil =>
      rw [hsl] at hs
      exact absurd hs (List.not_mem_nil p)
    | cons a t =>
      rw [hsl] at hs h1
      simp only [List.headD_cons] at h1
      have hpt : p ∈ t := by
        rcases List.mem_cons.mp hs with h | h
        · exact absurd (h.trans h1) h45
        · exact h
      simp only [List.tail_cons]
      rw [pyIntBody_none_of_poison hpt hd h95]
      rfl
  · rw [if_neg h1]
    by_cases h2 : (stripWs l).headD 0 = 43
    · rw [if_pos h2]
      cases hsl : stripWs l with
      | nil =>
        rw [hsl] at hs
        exact absurd hs (List.not_mem_nil p)
      | cons a t =>
        rw [hsl] at hs h2
        simp only [List.headD_cons] at h2
        have hpt : p ∈ t := by
          rcases List.mem_cons.mp hs with h | h
          · exact absurd (h.trans h2) h43
          · exact h
        simp only [List.tail_cons]
        rw [pyIntBody_none_of_poison hpt hd h95]
        rfl
    · rw [if_neg h2]
      rw [pyIntBody_none_of_poison hs hd h95]
      rfl

/-- C2 (amended): handler-level failures that the code raises as
`ValueError` or detects explicitly while processing a dispatched
command — an `int()` failure on pipe metadata (caught by the
`(ValueError, JSONDecodeError)` guard), a missing file on GET, a
checksum mismatch on PUT-RESUME — are caught, answered with an `E`
response, and the connection loop continues to accept the next command;
but PUT metadata that parses as JSON of the wrong shape — a non-object,
or an object missing `'filename'` or `'size'` — raises an uncaught
`TypeError`/`KeyError` and terminates the connection without any `E`,
even though it is not a framing or transport failure.  The pipe case is
stated on the domain where the byte/str conflation is exact: an ASCII
payload whose size field is printable without quote or backslash and
short (so Python's `repr` in the `int()` message, formatted with
`%.200R`, is verbatim and untruncated) and contains a byte outside
`int()`'s literal alphabet (so `int()` provably raises).
(Spontaneous I/O errors are not representable in this embedding's total
filesystem.) -/
theorem handler_errors_caught_amended :
    (∀ (H : Bytes → Bytes) (d : Dir) (p : Bytes) (rest : List Frame),
      Dir.lookup d (stripWs p) = none →
      handleClient H d (⟨'G', p⟩ :: rest) =
        (⟨'E', notFoundMsg (stripWs p)⟩ :: (handleClient H d rest).1,
          (handleClient H d rest).2)) ∧
    (∀ (H : Bytes → Bytes) (d : Dir) (payload : Bytes) (rest : List Frame),
      124 ∈ payload →
      (∀ b ∈ payload, b < 128) →
      (∀ b ∈ afterPipe payload, 32 ≤ b ∧ b ≤ 126 ∧ b ≠ 39 ∧ b ≠ 92) →
      (afterPipe payload).length ≤ 100 →
      (∃ b ∈ afterPipe payload, pyIntLiteralByte b = false) →
      handleClient H d (⟨'P', payload⟩ :: rest) =
        (⟨'E', invalidMetaMsg (.valueError (intErrMsg (afterPipe payload)))⟩ ::
            (handleClient H d rest).1,
          (handleClient H d rest).2)) ∧
    (∀ (H : Bytes → Bytes) (d : Dir) (N existing sha : Bytes) (chunks : List Bytes)
        (rest : List Frame),
      124 ∉ N → Dir.lookup d (partName N) = some existing →
      H (existing ++ chunks.flatten) ≠ sha →
      handleClient H d
          (⟨'R', N ++ 124 :: (natBytes existing.length ++ 124 :: str2bytes "put")⟩ ::
            (chunks.map (fun c => Frame.mk 'F' c) ++ ⟨'S', sha⟩ :: rest)) =
        (⟨'O', jsonResumeAck existing.length⟩ ::
            ⟨'E', putResumeFailedMsg
              (checksumMismatchMsg (H (existing ++ chunks.flatten)) sha)⟩ ::
            (handleClient H (d.insert (partName N) (existing ++ chunks.flatten)) rest).1,
          (handleClient H (d.insert (partName N) (existing ++ chunks.flatten)) rest).2)) ∧
    (∀ (H : Bytes → Bytes) (d : Dir) (payload : Bytes) (rest : List Frame) (e : PyExc),
      parsePutMeta payload = .error e → e.isCaughtMeta = false →
      handleClient H d (⟨'P', payload⟩ :: rest) = ([], d)) := by
  refine ⟨?_, ?_, ?_, ?_⟩
  · intro H d p rest hl
    have hd : dispatch H d ⟨'G', p⟩ rest =
        ⟨[⟨'E', notFoundMsg (stripWs p)⟩], d, rest, false, false⟩ := by
      rw [dispatch_G]
      simp only [handle_get, hl]
    rw [handleClient_cons H d _ rest (by rw [hd]; rfl), hd]
    simp
  · intro H d payload rest h124 _ _ _ hpoison
    obtain ⟨p, hpmem, hpo⟩ := hpoison
    have hp : parsePutMeta payload =
        .error (.valueError (intErrMsg (afterPipe payload))) := by
      unfold parsePutMeta
      rw [if_pos h124, pyInt_none_of_poison hpmem hpo]
    have hd : dispatch H d ⟨'P', payload⟩ rest =
        ⟨[⟨'E', invalidMetaMsg (.valueError (intErrMsg (afterPipe payload)))⟩],
          d, rest, false, false⟩ := by
      rw [dispatch_P]
      simp only [handle_put, hp]
      rfl
    rw [handleClient_cons H d _ rest (by rw [hd]; rfl), hd]
    simp
  · intro H d N existing sha chunks rest hN hl hsum
    have hd : dispatch H d
        ⟨'R', N ++ 124 :: (natBytes existing.length ++ 124 :: str2bytes "put")⟩
        (chunks.map (fun c => Frame.mk 'F' c) ++ ⟨'S', sha⟩ :: rest) =
        ⟨[⟨'O', jsonResumeAck existing.length⟩,
            ⟨'E', putResumeFailedMsg
              (checksumMismatchMsg (H (existing ++ chunks.flatten)) sha)⟩],
          d.insert (partName N) (existing ++ chunks.flatten), rest, false, false⟩ := by
      rw [dispatch_R]
      simp only [parseResumeCmd_pipe_put hN existing.length]
      rw [if_pos trivial]
      simp only [handle_put_resume, parseResumeMeta_pipe hN existing.length, hl]
      rw [resumeLoop_gotS_of chunks sha rest []]
      simp only [List.nil_append]
      rw [if_neg hsum]
      rw [if_neg (show ¬(((existing.length : Nat) : Int) ≠ ((existing.length : Nat) : Int))
        from fun hc => hc rfl)]
      rw [if_neg (by decide : ¬(str2bytes "put" = str2bytes "get"))]
    rw [handleClient_cons H d _ _ (by rw [hd]; rfl), hd]
    simp
  · intro H d payload rest e hp hc
    have hd : dispatch H d ⟨'P', payload⟩ rest = ⟨[], d, rest, false, true⟩ := by
      rw [dispatch_P]
      simp only [handle_put, hp]
      rw [if_neg (by rw [hc]; simp)]
    rw [handleClient_cons_term H d _ rest (by rw [hd]; rfl), hd]

/-- Witness for the amended C2: a missing-file GET, a bad pipe metadata
PUT, a checksum-mismatch PUT-RESUME (each answered with `E` and the loop
continuing), and the wrong-shape JSON metadata `"3"` killing the
connection. -/
theorem handler_errors_caught_amended_witness :
    (handleClient (fun b => b) [] [⟨'G', [97]⟩] =
      (⟨'E', notFoundMsg (stripWs [97])⟩ :: (handleClient (fun b => b) [] []).1,
        (handleClient (fun b => b) [] []).2)) ∧
    (handleClient (fun b => b) [] [⟨'P', str2bytes "a|x"⟩] =
      (⟨'E', invalidMetaMsg (.valueError (intErrMsg [120]))⟩ ::
          (handleClient (fun b => b) [] []).1,
        (handleClient (fun b => b) [] []).2)) ∧
    (handleClient (fun b => b) [(partName [97], [5])]
        (⟨'R', [97] ++ 124 :: (natBytes 1 ++ 124 :: str2bytes "put")⟩ ::
          ([[6]].map (fun c => Frame.mk 'F' c) ++ ⟨'S', [9]⟩ :: [])) =
      (⟨'O', jsonResumeAck 1⟩ ::
          ⟨'E', putResumeFailedMsg (checksumMismatchMsg ([5] ++ [[6]].flatten) [9])⟩ ::
          (handleClient (fun b => b)
            (Dir.insert [(partName [97], [5])] (partName [97]) ([5] ++ [[6]].flatten)) []).1,
        (handleClient (fun b => b)
          (Dir.insert [(partName [97], [5])] (partName [97]) ([5] ++ [[6]].flatten)) []).2)) ∧
    (handleClient (fun b => b) [] [⟨'P', str2bytes "3"⟩] = ([], [])) :=
  ⟨handler_errors_caught_amended.1 (fun b => b) [] [97] [] (by rfl),
   handler_errors_caught_amended.2.1 (fun b => b) [] (str2bytes "a|x") []
     (by decide) (by decide) (by decide) (by decide) (by decide),
   handler_errors_caught_amended.2.2.1 (fun b => b) [(partName [97], [5])] [97] [5] [9]
     [[6]] [] (by decide) (by rfl) (by decide),
   handler_errors_caught_amended.2.2.2 (fun b => b) [] (str2bytes "3") []
     (.typeError (str2bytes "value is not subscriptable")) (by rfl) (by rfl)⟩
